import Mathlib

/-!
# downloadhub: the segmented transfer engine of `main.go`

A shallow embedding of the transfer engine (`getFileInfo`, `initializeChunks`,
`downloadChunk`, `downloadSingleFile`, `mergeChunks`, `startDownload`,
`removeTask` and the pause/retry button of `createTaskUI`) together with the
properties of the engine that are stated in the specification.

Conventions of the embedding.

* Go `int` and `int64` values are `Int`.  Every arithmetic expression that the
  engine evaluates for a non-negative `TotalSize` stays between `-1` and
  `TotalSize` (`initializeChunks_no_overflow`), so wrap-around never occurs.
* Go `/` on integers truncates toward zero: `Int.tdiv`.
* `float64` progress values are kept symbolically (`ProgressVal`).
* Code that can panic or loop forever returns `Option`; loops take fuel.
* The network, the file system, the storage device and the user interface
  thread are explicit inputs (`ProbeEnv`, `ChunkEnv`, `SingleEnv`, `FS`, `Disk`).
  The results of `file.Write` and `io.Copy` are discarded by the engine; what
  a write stores is decided by the device.
-/

namespace DownloadHub

/-! ## Data model -/

/-- A symbolic `float64` progress value: the zero value of the field, the
constant `1.0`, or the quotient `float64(num) / float64(den)`. -/
inductive ProgressVal where
  | zero
  | one
  | quot (num den : Int)
  deriving DecidableEq, Repr

/-- The Go struct `ChunkInfo`. -/
structure ChunkInfo where
  Index : Int
  Start : Int
  End : Int
  Progress : ProgressVal
  Status : String
  deriving DecidableEq, Repr

/-- The engine fields of the Go struct `DownloadTask` (widget fields omitted). -/
structure DownloadTask where
  ID : String
  URL : String
  OutputFile : String
  TotalSize : Int
  Downloaded : Int
  ChunkCount : Int
  Chunks : List ChunkInfo
  Status : String
  Progress : ProgressVal
  MD5Hash : String
  SHA256Hash : String
  deriving DecidableEq, Repr

/-! ## Partitioner: `initializeChunks` -/

/-- The body of the `for` loop of `initializeChunks` for loop counter `i`. -/
def mkChunk (totalSize chunkCount chunkSize : Int) (i : Nat) : ChunkInfo :=
  let start : Int := (i : Int) * chunkSize
  let end0 : Int := start + chunkSize - 1
  let end1 : Int := if (i : Int) = chunkCount - 1 then totalSize - 1 else end0
  { Index := i, Start := start, End := end1, Progress := ProgressVal.zero, Status := "Pending" }

/-- The function `initializeChunks`.  `none` stands for the two run-time panics
of the Go code: integer division by zero when `ChunkCount = 0` and
`make` with a negative length when `ChunkCount < 0`.  The slice made by
`make([]ChunkInfo, n)` and filled at every index `i = 0 .. n-1` by the loop is
the list of the loop bodies in index order. -/
def initializeChunks (task : DownloadTask) : Option DownloadTask :=
  if task.ChunkCount ≤ 0 then none
  else
    let chunkSize := Int.tdiv task.TotalSize task.ChunkCount
    some { task with
      Chunks := (List.range task.ChunkCount.toNat).map
        (mkChunk task.TotalSize task.ChunkCount chunkSize) }

/-- A task as `addDownload` creates it, with the size the probe has stored. -/
def probedTask (totalSize : Int) (n : Int) : DownloadTask :=
  { ID := "task_1", URL := "http://example.com/file.bin", OutputFile := "/dl/file.bin",
    TotalSize := totalSize, Downloaded := 0, ChunkCount := n, Chunks := [],
    Status := "Preparing...", Progress := ProgressVal.zero, MD5Hash := "", SHA256Hash := "" }

/-- Offset `x` lies in the inclusive byte range `[Start, End]` of a segment. -/
def ChunkInfo.covers (c : ChunkInfo) (x : Int) : Prop := c.Start ≤ x ∧ x ≤ c.End

instance (c : ChunkInfo) (x : Int) : Decidable (c.covers x) := by
  unfold ChunkInfo.covers; infer_instance

/-- The ranges of `chunks` cover `[0, totalSize)` exactly: every offset of
`[0, totalSize)` lies in the range of exactly one index, and no range holds an
offset outside `[0, totalSize)`. -/
def CoversExactly (totalSize : Int) (chunks : List ChunkInfo) : Prop :=
  (∀ x : Int, 0 ≤ x → x < totalSize →
      ∃! i : Nat, ∃ c, chunks[i]? = some c ∧ c.covers x) ∧
  (∀ c ∈ chunks, ∀ x : Int, c.covers x → 0 ≤ x ∧ x < totalSize)

/-! ## Standard-library functions used by the prober

The Go standard-library functions that `getFileInfo` calls, after their
documentation.  Strings are compared character by character; the separators
and keywords involved are ASCII, so byte offsets and character offsets cut a
valid UTF-8 string at the same places. -/

/-- The method `resp.Header.Get(key)`: the first value stored under the
(canonical) key, the empty string when there is none. -/
def headerGet (h : List (String × String)) (key : String) : String :=
  match h.find? (fun kv => kv.1 == key) with
  | some kv => kv.2
  | none => ""

/-- The value of a run of decimal digits; `none` when a character is not a digit. -/
def digitsValue : List Char → Nat → Option Nat
  | [], acc => some acc
  | c :: cs, acc =>
    if c.isDigit then digitsValue cs (acc * 10 + (c.toNat - '0'.toNat)) else none

/-- The first result of `strconv.ParseInt(s, 10, 64)`, the error being dropped
as in `task.TotalSize, _ = strconv.ParseInt(..)`: `0` on a syntax error, the
nearest `int64` bound on a range error. -/
def parseInt (s : String) : Int :=
  match s.toList with
  | [] => 0
  | c :: cs =>
    let neg : Bool := c == '-'
    let digits := if c == '+' || c == '-' then cs else c :: cs
    match digits with
    | [] => 0
    | _ =>
      match digitsValue digits 0 with
      | none => 0
      | some un =>
        if !neg && decide (2 ^ 63 ≤ un) then 2 ^ 63 - 1
        else if neg && decide (2 ^ 63 < un) then -(2 ^ 63)
        else if neg then -(un : Int) else (un : Int)

/-- The pieces of a character list between the occurrences of `sep`. -/
def splitOnChar (sep : Char) : List Char → List (List Char)
  | [] => [[]]
  | c :: cs =>
    if c = sep then [] :: splitOnChar sep cs
    else
      match splitOnChar sep cs with
      | [] => [[c]]
      | p :: ps => (c :: p) :: ps

/-- The call `strings.Split(s, "/")`. -/
def stringsSplitSlash (s : String) : List String :=
  (splitOnChar '/' s.toList).map String.mk

/-- The offset of the first occurrence of `sub`, `none` for Go's `-1`. -/
def indexOfChars (sub : List Char) : List Char → Option Nat
  | [] => if sub = [] then some 0 else none
  | c :: cs =>
    if sub.isPrefixOf (c :: cs) then some 0
    else (indexOfChars sub cs).map (fun k => k + 1)

/-- The call `strings.Index(s, sub)`. -/
def stringsIndex (s sub : String) : Option Nat :=
  indexOfChars sub.toList s.toList

/-- The call `strings.Trim(s, "\"")`: leading and trailing double quotes removed. -/
def stringsTrimQuote (s : List Char) : String :=
  String.mk ((s.dropWhile (fun c => c == '"')).reverse.dropWhile (fun c => c == '"')).reverse

/-- The function `path.Base`: `"."` for the empty string; otherwise trailing
slashes are stripped and the text after the last remaining slash is returned,
`"/"` when nothing remains. -/
def pathBase (p : String) : String :=
  if p = "" then "."
  else
    let stripped := p.toList.reverse.dropWhile (fun c => c == '/')
    let last := stripped.takeWhile (fun c => c != '/')
    if last = [] then "/" else String.mk last.reverse

/-- Standard-library functions that are kept uninterpreted. -/
structure Lib where
  /-- The function `filepath.Join` on two elements. -/
  join : String → String → String
  /-- The hex digest `hex.EncodeToString(md5.Sum(..))` of a byte sequence. -/
  md5hex : List UInt8 → String
  /-- The hex digest `hex.EncodeToString(sha256.Sum(..))` of a byte sequence. -/
  sha256hex : List UInt8 → String

/-! ## Environment: network, file system, user-interface thread -/

/-- The second result of `resp.Body.Read`: `nil`, `io.EOF` or another error. -/
inductive ReadErr where
  | EOF
  | other
  deriving DecidableEq, Repr

/-- One call of `resp.Body.Read(buffer)`: the bytes `buffer[:n]` and the error. -/
structure ReadResult where
  data : List UInt8
  err : Option ReadErr
  deriving DecidableEq

/-- The part of an `http.Request` the engine sets. -/
structure Request where
  Method : String
  URL : String
  /-- The header `Range: bytes=<first>-<last>` when set. -/
  Range : Option (Int × Int)
  UserAgent : String
  deriving DecidableEq

/-- The part of an `http.Response` the engine reads; `Body k` is the result of
the `k`-th call of `Body.Read`. -/
structure Response where
  StatusCode : Int
  Header : List (String × String)
  Body : Nat → ReadResult

/-- A file name: the destination `path`, or a segment sink
`fmt.Sprintf("%s.part%d", path, index)`.  Within one task the two forms never
name the same file and two sinks coincide only for equal indices. -/
inductive FileName where
  | output (path : String)
  | part (path : String) (index : Int)
  deriving DecidableEq, Repr

/-- The file system: the content of every existing file. -/
abbrev FS := FileName → Option (List UInt8)

/-- The call `os.Create`: the file exists and is empty afterwards. -/
def FS.create (fs : FS) (f : FileName) : FS :=
  fun g => if g = f then some [] else fs g

/-- The bytes `bytes` are appended to the file `f`. -/
def FS.write (fs : FS) (f : FileName) (bytes : List UInt8) : FS :=
  fun g => if g = f then some ((fs f).getD [] ++ bytes) else fs g

/-- The storage device: `disk f old data` are the bytes that reach the file
`f`, which holds `old`, when `data` is written to it.  A write that succeeds
stores `data`; a write that fails or is short stores less.  The engine
discards the results of `file.Write` and `io.Copy`, so it never learns which. -/
abbrev Disk := FileName → List UInt8 → List UInt8 → List UInt8

/-- A device on which every write stores all its bytes. -/
def reliableDisk : Disk := fun _ _ data => data

/-- A device on which no write to a destination file stores anything, while
the segment sinks are written in full. -/
def noDestinationDisk : Disk := fun f _ data =>
  match f with
  | FileName.output _ => []
  | FileName.part _ _ => data

/-- The calls `file.Write(data)` and `io.Copy(file, ..)` with their results
discarded: the bytes the device stores are appended to the file. -/
def FS.store (disk : Disk) (fs : FS) (f : FileName) (data : List UInt8) : FS :=
  fs.write f (disk f ((fs f).getD []) data)

/-- The call `os.Remove`. -/
def FS.remove (fs : FS) (f : FileName) : FS :=
  fun g => if g = f then none else fs g

/-- The calls of engine functions, in the order they are entered. -/
inductive Call where
  | getFileInfo
  | initializeChunks
  | downloadChunk (i : Nat)
  | mergeChunks
  | calculateChecksums
  | downloadSingleFile
  | updateStats
  deriving DecidableEq, Repr

/-- The state the engine works on: the task, the file system, the log of
engine calls made so far, and the storage device the files live on (a device
that stores every write in full unless another one is given). -/
structure State where
  task : DownloadTask
  fs : FS
  trace : List Call
  disk : Disk := reliableDisk

/-- Record the entry of an engine function. -/
def State.call (s : State) (c : Call) : State :=
  { s with trace := s.trace ++ [c] }

/-- The engine fields of the Go struct `Downloader`; `tasks` holds the keys of
the task map. -/
structure Downloader where
  outputFolder : String
  chunkCount : Int
  tasks : List String
  deriving DecidableEq, Repr

def userAgent : String := "Mozilla/5.0 (Windows NT 10.0; Win64; x64) AppleWebKit/537.36"

/-! ## Prober: `getFileInfo` -/

/-- What the probe meets: whether `http.NewRequest("HEAD", ..)` fails, the
outcome of each `client.Do` (`none` for an error) and whether `os.MkdirAll` fails. -/
structure ProbeEnv where
  requestErr : Bool
  client : Request → Option Response
  mkdirErr : Bool

/-- The HEAD request of `getFileInfo`. -/
def headRequest (url : String) : Request :=
  { Method := "HEAD", URL := url, Range := none, UserAgent := userAgent }

/-- The GET request of `getFileInfo` with the header `Range: bytes=0-0`. -/
def rangeProbeRequest (url : String) : Request :=
  { Method := "GET", URL := url, Range := some (0, 0), UserAgent := userAgent }

/-- The response `getFileInfo` ends up with: the HEAD response when it arrived
with status 200, otherwise the response of the GET with `Range: bytes=0-0`;
`none` when `getFileInfo` returns the error of that GET. -/
def probeResponse (env : ProbeEnv) (url : String) : Option Response :=
  match env.client (headRequest url) with
  | none => env.client (rangeProbeRequest url)
  | some resp => if resp.StatusCode ≠ 200 then env.client (rangeProbeRequest url) else some resp

/-- The block `// Get size` of `getFileInfo`. -/
def probeSize (resp : Response) (task : DownloadTask) : DownloadTask :=
  let cl := headerGet resp.Header "Content-Length"
  if cl ≠ "" then { task with TotalSize := parseInt cl }
  else
    let cr := headerGet resp.Header "Content-Range"
    if cr ≠ "" then
      let parts := stringsSplitSlash cr
      if parts.length = 2 then { task with TotalSize := parseInt (parts.getD 1 "") }
      else task
    else task

/-- The block `// Get filename` of `getFileInfo`. -/
def probeName (resp : Response) (task : DownloadTask) : DownloadTask :=
  let cd := headerGet resp.Header "Content-Disposition"
  if cd ≠ "" then
    match stringsIndex cd "filename=" with
    | some idx => { task with OutputFile := stringsTrimQuote (cd.toList.drop (idx + 9)) }
    | none => task
  else
    let base := pathBase task.URL
    if base = "/" ∨ base = "." then { task with OutputFile := "download_" ++ task.ID }
    else { task with OutputFile := base }

/-- The function `getFileInfo`: the task as it leaves it and whether it
returns an error. -/
def getFileInfo (lib : Lib) (d : Downloader) (env : ProbeEnv) (task : DownloadTask) :
    DownloadTask × Bool :=
  if env.requestErr then (task, true)
  else
    match probeResponse env task.URL with
    | none => (task, true)
    | some resp =>
      let task := probeSize resp task
      let task := probeName resp task
      let task := { task with OutputFile := lib.join d.outputFolder task.OutputFile }
      if env.mkdirErr then (task, true) else (task, false)

/-! ## Chunk worker: `downloadChunk` -/

/-- What one chunk worker meets: whether `http.NewRequest` fails, the outcome of
`client.Do` (`none` for an error), whether `os.Create` of the sink fails, and
`polled k`, the value of `task.Status` the worker reads at the check
`task.Status == "Cancelled"` that follows its `k`-th read (the field is
written by the user-interface thread while the worker runs). -/
structure ChunkEnv where
  requestErr : Bool
  client : Request → Option Response
  createErr : Bool
  polled : Nat → String

/-- The local variables of the read loop of `downloadChunk`: the response
body, `tempFile`, `totalBytes`, the number of reads made and `downloaded`. -/
structure ReadLoop where
  body : Nat → ReadResult
  tempFile : FileName
  totalBytes : Int
  k : Nat
  downloaded : Int

/-- Apply `f` to the segment `task.Chunks[i]` (a write through the pointer
`chunk = &task.Chunks[i]`). -/
def State.updateChunk (s : State) (i : Nat) (f : ChunkInfo → ChunkInfo) : State :=
  { s with task := { s.task with Chunks := s.task.Chunks.modify f i } }

/-- The request of `downloadChunk`: a GET with the header
`Range: bytes=<Start>-<End>` of the segment. -/
def chunkRequest (url : String) (chunk : ChunkInfo) : Request :=
  { Method := "GET", URL := url, Range := some (chunk.Start, chunk.End),
    UserAgent := userAgent }

/-- The code of `downloadChunk` before its read loop: build and send the range
request, check the status code, create the sink.  The second component is
`none` when the function has returned (the segment is then `Failed`), and the
initial loop variables otherwise. -/
def downloadChunkEnter (env : ChunkEnv) (s : State) (i : Nat) : State × Option ReadLoop :=
  let s := s.call (Call.downloadChunk i)
  match s.task.Chunks[i]? with
  | none => (s, none)
  | some chunk =>
    let failed := s.updateChunk i (fun c => { c with Status := "Failed" })
    if env.requestErr then (failed, none)
    else
      match env.client (chunkRequest s.task.URL chunk) with
      | none => (failed, none)
      | some resp =>
        if resp.StatusCode ≠ 206 ∧ resp.StatusCode ≠ 200 then (failed, none)
        else if env.createErr then (failed, none)
        else
          let tempFile := FileName.part s.task.OutputFile chunk.Index
          ({ s with fs := s.fs.create tempFile },
           some { body := resp.Body, tempFile := tempFile,
                  totalBytes := chunk.End - chunk.Start + 1, k := 0, downloaded := 0 })

/-- The block `if n > 0` of the read loop of `downloadChunk`: the bytes of the
read are written to the sink, the segment's progress is set and the task's
`Downloaded` is increased under the lock. -/
def downloadChunkStore (i : Nat) (l : ReadLoop) (s : State) : State :=
  let r := l.body l.k
  let n : Int := r.data.length
  if 0 < n then
    let s := { s with fs := FS.store s.disk s.fs l.tempFile r.data }
    let s := s.updateChunk i
      (fun c => { c with Progress := ProgressVal.quot (l.downloaded + n) l.totalBytes })
    { s with task := { s.task with Downloaded := s.task.Downloaded + n } }
  else s

/-- One iteration of the read loop of `downloadChunk`.  The second component is
`none` when the function has returned after this iteration, and the loop
variables for the next iteration otherwise. -/
def downloadChunkIter (env : ChunkEnv) (i : Nat) (l : ReadLoop) (s : State) :
    State × Option ReadLoop :=
  let r := l.body l.k
  let n : Int := r.data.length
  let downloaded := if 0 < n then l.downloaded + n else l.downloaded
  let s := downloadChunkStore i l s
  match r.err with
  | some ReadErr.EOF =>
    (s.updateChunk i (fun c => { c with Status := "Completed", Progress := ProgressVal.one }),
     none)
  | some ReadErr.other =>
    (s.updateChunk i (fun c => { c with Status := "Failed" }), none)
  | none =>
    if env.polled l.k = "Cancelled" then (s, none)
    else (s, some { l with k := l.k + 1, downloaded := downloaded })

/-- The read loop of `downloadChunk`; `none` when the fuel runs out. -/
def downloadChunkLoop (env : ChunkEnv) (i : Nat) : Nat → ReadLoop → State → Option State
  | 0, _, _ => none
  | fuel + 1, l, s =>
    match downloadChunkIter env i l s with
    | (s', none) => some s'
    | (s', some l') => downloadChunkLoop env i fuel l' s'

/-- The function `downloadChunk` on the segment `task.Chunks[i]`. -/
def downloadChunk (env : ChunkEnv) (fuel : Nat) (s : State) (i : Nat) : Option State :=
  match downloadChunkEnter env s i with
  | (s', none) => some s'
  | (s', some l) => downloadChunkLoop env i fuel l s'

/-! ## Worker pool

The goroutines that `startDownload` launches, one per segment, interleave
their steps.  A step of worker `i` is either the entry of `downloadChunk`
(taken only while fewer than three workers hold the semaphore) or one
iteration of its read loop. -/

/-- The control state of one worker goroutine. -/
inductive Worker where
  | idle
  | reading (l : ReadLoop)
  | done

/-- Whether the worker is inside `downloadChunk` (it holds the semaphore). -/
def Worker.isReading : Worker → Bool
  | Worker.reading _ => true
  | _ => false

/-- Whether the worker has returned. -/
def Worker.isDone : Worker → Bool
  | Worker.done => true
  | _ => false

/-- The worker phase of a task: the shared state and the workers. -/
structure Pool where
  s : State
  workers : List Worker

/-- The control state after a step that left the loop variables `r`. -/
def Worker.after : Option ReadLoop → Worker
  | none => Worker.done
  | some l => Worker.reading l

/-- One step of worker `i`. -/
def Pool.step (envs : Nat → ChunkEnv) (p : Pool) (i : Nat) : Pool :=
  match p.workers[i]? with
  | some Worker.idle =>
    if (p.workers.filter Worker.isReading).length < 3 then
      let r := downloadChunkEnter (envs i) p.s i
      { s := r.1, workers := p.workers.set i (Worker.after r.2) }
    else p
  | some (Worker.reading l) =>
    let r := downloadChunkIter (envs i) i l p.s
    { s := r.1, workers := p.workers.set i (Worker.after r.2) }
  | _ => p

/-- The steps of a schedule, in order. -/
def Pool.run (envs : Nat → ChunkEnv) (p : Pool) (schedule : List Nat) : Pool :=
  schedule.foldl (Pool.step envs) p

/-- The pool at the launch of the workers. -/
def Pool.start (s : State) : Pool :=
  { s := s, workers := s.task.Chunks.map (fun _ => Worker.idle) }

/-- Every worker has returned: `wg.Wait()` returns. -/
def Pool.joined (p : Pool) : Bool :=
  p.workers.all Worker.isDone

/-! ## Fallback: `downloadSingleFile` -/

/-- What the whole-file transfer meets. -/
structure SingleEnv where
  requestErr : Bool
  client : Request → Option Response
  createErr : Bool

/-- The read loop of `downloadSingleFile` from its `k`-th read on; it ends only
at a read that returns `io.EOF`.  `none` when the fuel runs out. -/
def downloadSingleFileLoop (body : Nat → ReadResult) : Nat → Nat → State → Option State
  | 0, _, _ => none
  | fuel + 1, k, s =>
    let r := body k
    let n : Int := r.data.length
    let s :=
      if 0 < n then
        let s := { s with
          fs := FS.store s.disk s.fs (FileName.output s.task.OutputFile) r.data }
        let s := { s with task := { s.task with Downloaded := s.task.Downloaded + n } }
        { s with task := { s.task with
            Progress := ProgressVal.quot s.task.Downloaded s.task.TotalSize } }
      else s
    if r.err = some ReadErr.EOF then
      some { s with task := { s.task with Status := "Completed" } }
    else downloadSingleFileLoop body fuel (k + 1) s

/-- The function `downloadSingleFile`. -/
def downloadSingleFile (env : SingleEnv) (fuel : Nat) (s : State) : Option State :=
  let s := s.call Call.downloadSingleFile
  let failed : State := { s with task := { s.task with Status := "Failed" } }
  if env.requestErr then some failed
  else
    match env.client { Method := "GET", URL := s.task.URL, Range := none,
                       UserAgent := "Mozilla/5.0" } with
    | none => some failed
    | some resp =>
      if env.createErr then some failed
      else
        downloadSingleFileLoop resp.Body fuel 0
          { s with fs := s.fs.create (FileName.output s.task.OutputFile) }

/-! ## Merger and checksums -/

/-- One iteration of the loop of `mergeChunks`: a sink that cannot be opened is
skipped; otherwise it is copied to the end of the destination and removed. -/
def mergeStep (disk : Disk) (out : String) (fs : FS) (i : Nat) : FS :=
  match fs (FileName.part out i) with
  | none => fs
  | some bytes =>
    (FS.store disk fs (FileName.output out) bytes).remove (FileName.part out i)

/-- The function `mergeChunks`; the flag says whether it returns an error
(`os.Create` of the destination failed). -/
def mergeChunks (createErr : Bool) (s : State) : State × Bool :=
  let s := s.call Call.mergeChunks
  if createErr then (s, true)
  else
    let fs := s.fs.create (FileName.output s.task.OutputFile)
    let fs := (List.range s.task.ChunkCount.toNat).foldl
      (mergeStep s.disk s.task.OutputFile) fs
    ({ s with fs := fs }, false)

/-- The function `calculateChecksums`: the two digests of the destination
file, left unset when it cannot be opened. -/
def calculateChecksums (lib : Lib) (s : State) : State :=
  let s := s.call Call.calculateChecksums
  match s.fs (FileName.output s.task.OutputFile) with
  | none => s
  | some bytes =>
    { s with task := { s.task with MD5Hash := lib.md5hex bytes,
                                   SHA256Hash := lib.sha256hex bytes } }

/-! ## Orchestrator: `startDownload`, `removeTask`, the action button -/

/-- The number of segments whose status is `"Completed"`. -/
def successCount (chunks : List ChunkInfo) : Nat :=
  (chunks.filter (fun c => c.Status == "Completed")).length

/-- Everything a run of `startDownload` meets.  `schedule` is the
interleaving of the worker steps, and `uiStatus` the last value the
user-interface thread wrote to `task.Status` while the workers ran, if any. -/
structure World where
  probe : ProbeEnv
  chunk : Nat → ChunkEnv
  schedule : List Nat
  uiStatus : Option String
  mergeCreateErr : Bool
  single : SingleEnv

/-- The code of `startDownload` after `wg.Wait()`: count the completed
segments and take the fallback, the merge or the failure path. -/
def afterJoin (lib : Lib) (w : World) (fuel : Nat) (s : State) : Option State :=
  let count := successCount s.task.Chunks
  if count < s.task.Chunks.length / 2 then
    downloadSingleFile w.single fuel s
  else if count = s.task.Chunks.length then
    match mergeChunks w.mergeCreateErr s with
    | (s, true) => some { s with task := { s.task with Status := "Failed" } }
    | (s, false) =>
      let s := calculateChecksums lib s
      let s := { s with task := { s.task with Status := "Completed" } }
      some (s.call Call.updateStats)
  else
    let s := { s with task := { s.task with Status := "Failed" } }
    some (s.call Call.updateStats)

/-- The function `startDownload`.  `none` when it does not return: a panic of
`initializeChunks`, a schedule that does not bring every worker to its
return, or a fallback transfer that runs out of fuel.  The widget updates
inside `fyne.Do`, the 200 ms stagger between the launches and the goroutine
`monitorProgress`, which only reads the task, are left out. -/
def startDownload (lib : Lib) (d : Downloader) (w : World) (fuel : Nat) (s : State) :
    Option State :=
  let s := s.call Call.getFileInfo
  match getFileInfo lib d w.probe s.task with
  | (task, true) => some { s with task := { task with Status := "Failed" } }
  | (task, false) =>
    let s := ({ s with task := task } : State).call Call.initializeChunks
    match initializeChunks s.task with
    | none => none
    | some task =>
      let s := { s with task := { task with Status := "Downloading" } }
      let p := Pool.run w.chunk (Pool.start s) w.schedule
      if p.joined then
        afterJoin lib w fuel
          { p.s with task := { p.s.task with Status := w.uiStatus.getD p.s.task.Status } }
      else none

/-- The handler of the remove button, `removeTask`: the task, the downloader
and the writes in the order they are made (`true` for the write of
`"Cancelled"` to `task.Status`, `false` for the deletion from the task
map).  The field `cancelFunc` is never assigned, so its call is never made. -/
def removeTask (d : Downloader) (task : DownloadTask) :
    Downloader × DownloadTask × List Bool :=
  let cancel : Bool := task.Status == "Downloading" || task.Status == "Preparing..."
  let task := if cancel then { task with Status := "Cancelled" } else task
  ({ d with tasks := d.tasks.filter (fun id => id != task.ID) }, task,
   (if cancel then [true] else []) ++ [false])

/-- The handler of the action button built in `createTaskUI`: the task after a
tap, and whether the tap launches `startDownload` again (the retry). -/
def actionButtonTapped (task : DownloadTask) : DownloadTask × Bool :=
  if task.Status = "Downloading" then ({ task with Status := "Paused" }, false)
  else if task.Status = "Paused" then ({ task with Status := "Downloading" }, false)
  else if task.Status = "Failed" then ({ task with Status := "Preparing..." }, true)
  else (task, false)

/-! ## Concrete inputs used to evaluate the engine -/

/-- A stand-in for the uninterpreted library functions: non-empty path
elements joined by a slash, digests that only record the length of the input. -/
def plainLib : Lib :=
  { join := fun a b => if a = "" then b else if b = "" then a else a ++ "/" ++ b,
    md5hex := fun bytes => "md5:" ++ toString bytes.length,
    sha256hex := fun bytes => "sha256:" ++ toString bytes.length }

/-- The downloader with its default chunk count and the folder `/dl`. -/
def plainDownloader : Downloader :=
  { outputFolder := "/dl", chunkCount := 10, tasks := ["task_1"] }

/-- A segment with the given index and status. -/
def chunkWithStatus (i : Nat) (status : String) : ChunkInfo :=
  { Index := i, Start := 0, End := 0, Progress := ProgressVal.zero, Status := status }

/-- A body that yields `bytes` in one read together with `io.EOF`. -/
def bodyOf (bytes : List UInt8) : Nat → ReadResult :=
  fun _ => { data := bytes, err := some ReadErr.EOF }

/-- A client that answers no request. -/
def noClient : Request → Option Response := fun _ => none

/-- A world in which every request fails. -/
def deadWorld : World :=
  { probe := { requestErr := false, client := noClient, mkdirErr := false },
    chunk := fun _ =>
      { requestErr := false, client := noClient, createErr := false,
        polled := fun _ => "Downloading" },
    schedule := [], uiStatus := none, mergeCreateErr := false,
    single := { requestErr := false, client := noClient, createErr := false } }

/-- The empty file system. -/
def emptyFS : FS := fun _ => none

/-- A state at the join whose segments carry the given statuses. -/
def joinedState (statuses : List String) : State :=
  { task := { probedTask 1005 statuses.length with
      Chunks := statuses.enum.map (fun p => chunkWithStatus p.1 p.2),
      Status := "Downloading" },
    fs := emptyFS, trace := [] }

/-- A task as `addDownload` creates it for `url`: every field not named there
has its zero value. -/
def freshTask (url : String) : DownloadTask :=
  { ID := "task_1", URL := url, OutputFile := "", TotalSize := 0, Downloaded := 0,
    ChunkCount := 10, Chunks := [], Status := "Preparing...",
    Progress := ProgressVal.zero, MD5Hash := "", SHA256Hash := "" }

/-- A probe in which `client.Do` yields `head` for the HEAD request and `get`
for the GET request. -/
def probeEnvOf (head get : Option Response) : ProbeEnv :=
  { requestErr := false,
    client := fun r => if r.Method = "HEAD" then head else get,
    mkdirErr := false }

/-- A response with the given status code and header and an empty body. -/
def headerResponse (code : Int) (header : List (String × String)) : Response :=
  { StatusCode := code, Header := header, Body := bodyOf [] }

/-- The answer of a server to the range probe `bytes=0-0` on a resource of
1005 bytes: status 206, one byte of content, the total in `Content-Range`. -/
def rangeProbeResponse : Response :=
  headerResponse 206 [("Content-Length", "1"), ("Content-Range", "bytes 0-0/1005")]

/-- The state in which `startDownload` is entered for a fresh task. -/
def freshState (url : String) : State :=
  { task := freshTask url, fs := emptyFS, trace := [] }

/-- A world whose HEAD request is answered with status 200 and no header at
all; every later request fails, and the ten workers step in index order. -/
def noLengthWorld : World :=
  { deadWorld with
    probe := probeEnvOf (some (headerResponse 200 [])) none,
    schedule := List.range 10 }

/-- A body that yields `first` in a read without error and then `rest`
together with `io.EOF`. -/
def bodyInTwo (first rest : List UInt8) : Nat → ReadResult :=
  fun k => if k = 0 then { data := first, err := none }
    else { data := rest, err := some ReadErr.EOF }

/-- A client that answers every request with the status code and the body. -/
def clientOf (code : Int) (body : Nat → ReadResult) : Request → Option Response :=
  fun _ => some { StatusCode := code, Header := [], Body := body }

/-- A fresh task with `n` as its chunk count. -/
def freshStateWith (n : Int) : State :=
  { task := { freshTask "http://example.com/file.bin" with ChunkCount := n },
    fs := emptyFS, trace := [] }

/-- A world for a resource of 4 bytes and two segments in which the user
removes the task right after the workers have started: every worker reads one
byte, finds `task.Status == "Cancelled"` and returns.  The whole-file GET is
answered with the 4 bytes. -/
def cancelledWorld : World :=
  { probe := probeEnvOf (some (headerResponse 200 [("Content-Length", "4")])) none,
    chunk := fun _ =>
      { requestErr := false, client := clientOf 206 (bodyInTwo [7] [8]), createErr := false,
        polled := fun _ => "Cancelled" },
    schedule := [0, 0, 1, 1],
    uiStatus := some "Cancelled",
    mergeCreateErr := false,
    single := { requestErr := false, client := clientOf 200 (bodyOf [5, 6, 7, 8]),
                createErr := false } }

/-- A world for a resource of 4 bytes and one segment in which the task is
removed while the worker is in its only read, which returns the 4 bytes
together with `io.EOF`. -/
def cancelledLateWorld : World :=
  { cancelledWorld with
    chunk := fun _ =>
      { requestErr := false, client := clientOf 206 (bodyOf [5, 6, 7, 8]), createErr := false,
        polled := fun _ => "Cancelled" },
    schedule := [0, 0] }

/-- A world for a resource of 4 bytes and two segments in which worker 0
completes in one read and worker 1 observes the cancellation after its first
read of one byte. -/
def cancelledHalfWorld : World :=
  { cancelledWorld with
    chunk := fun i =>
      { requestErr := false,
        client := if i = 0 then clientOf 206 (bodyOf [5, 6]) else clientOf 206 (bodyInTwo [7] [8]),
        createErr := false,
        polled := fun _ => "Cancelled" } }

/-! ## Resources and servers -/

/-- The bytes of resource `r` at the offsets `a .. b` (none when `b < a`). -/
def slice (r : List UInt8) (a b : Int) : List UInt8 :=
  (r.drop a.toNat).take (b - a + 1).toNat

/-- The bytes returned by the first `K` reads of a body. -/
def readBytes (body : Nat → ReadResult) : Nat → List UInt8
  | 0 => []
  | K + 1 => readBytes body K ++ (body K).data

/-- A body delivers `bytes`: whenever its reads reach `io.EOF` without an
earlier error, the bytes read up to there are `bytes`. -/
def Delivers (body : Nat → ReadResult) (bytes : List UInt8) : Prop :=
  ∀ K, (∀ k, k < K → (body k).err = none) → (body K).err = some ReadErr.EOF →
    readBytes body (K + 1) = bytes

/-- The sinks of the segments `0 .. m-1` one after the other. -/
def joinUpTo (want : Nat → List UInt8) : Nat → List UInt8
  | 0 => []
  | m + 1 => joinUpTo want m ++ want m

/-- A server that honours the `Range` header: status 206 and the requested
bytes of `r`; the whole of `r` with status 200 for a request without range. -/
def rangeServer (r : List UInt8) : Request → Option Response :=
  fun req =>
    match req.Range with
    | some (a, b) => some { StatusCode := 206, Header := [], Body := bodyOf (slice r a b) }
    | none => some { StatusCode := 200, Header := [], Body := bodyOf r }

/-- A world over a server for the resource `r` that answers the HEAD request
with the length of `r`; `n` workers run one after the other, each entering
`downloadChunk` and making one read. -/
def serverWorld (server : Request → Option Response) (len : String) (n : Nat) : World :=
  { probe := probeEnvOf (some (headerResponse 200 [("Content-Length", len)])) none,
    chunk := fun _ =>
      { requestErr := false, client := server, createErr := false,
        polled := fun _ => "Downloading" },
    schedule := (List.range n).flatMap (fun i => [i, i]),
    uiStatus := none,
    mergeCreateErr := false,
    single := { requestErr := false, client := server, createErr := false } }

/-! ## Invariants of the worker pool -/

/-- What the pool maintains for worker `i`, its segment `c` and the content
`file` of its sink, `want` being the bytes the response body delivers: an idle
or reading worker's segment is `Pending`; a reading worker's sink holds the
bytes of the reads made so far, none of which returned an error; a segment
that is `Completed` has a sink that holds `want`. -/
def SinkOk (out : String) (want : List UInt8) (i : Nat) (w : Worker) (c : ChunkInfo)
    (file : Option (List UInt8)) : Prop :=
  match w with
  | Worker.idle => c.Status = "Pending"
  | Worker.reading l =>
    c.Status = "Pending" ∧ l.tempFile = FileName.part out i ∧ Delivers l.body want ∧
      (∀ k, k < l.k → (l.body k).err = none) ∧ file = some (readBytes l.body l.k)
  | Worker.done => c.Status = "Completed" → file = some want

/-- The invariant `SinkOk` for every worker of the pool, over the segment list
`cs` that `initializeChunks` built. -/
def SinksOk (out url : String) (cs : List ChunkInfo) (want : Nat → List UInt8)
    (p : Pool) : Prop :=
  p.s.task.OutputFile = out ∧ p.s.task.URL = url ∧ p.workers.length = cs.length ∧
  ∀ (i : Nat) (c0 : ChunkInfo), cs[i]? = some c0 → ∃ w c, p.workers[i]? = some w ∧
    p.s.task.Chunks[i]? = some c ∧ c.Index = (i : Int) ∧ c.Start = c0.Start ∧
    c.End = c0.End ∧
    SinkOk out (want i) i w c (p.s.fs (FileName.part out i))

/-- Every response to the range request of a segment of `cs` delivers the
bytes `want i`. -/
def Honest (envs : Nat → ChunkEnv) (url : String) (cs : List ChunkInfo)
    (want : Nat → List UInt8) : Prop :=
  ∀ (i : Nat) (c0 : ChunkInfo) (resp : Response), cs[i]? = some c0 →
    (envs i).client (chunkRequest url c0) = some resp → Delivers resp.Body (want i)

/-- The bytes of resource `r` in the range of segment `i` of `cs`. -/
def wantOf (r : List UInt8) (cs : List ChunkInfo) (i : Nat) : List UInt8 :=
  match cs[i]? with
  | some c => slice r c.Start c.End
  | none => []

/-- The state after a probe that stored `totalSize`, for a task of `n` chunks. -/
def probedState (totalSize : Int) (n : Int) : State :=
  { task := probedTask totalSize n, fs := emptyFS, trace := [] }

/-- The pool after both workers of a two-segment task over the resource
`[5, 6]` have run against a server that honours the `Range` header, on the
storage device `disk`. -/
def twoBytePool (disk : Disk) : Pool :=
  Pool.run (serverWorld (rangeServer [5, 6]) "2" 2).chunk
    (Pool.start
      { task := { probedTask 2 2 with
          Chunks := [mkChunk 2 2 1 0, mkChunk 2 2 1 1], Status := "Downloading" },
        fs := emptyFS, trace := [], disk := disk })
    [0, 0, 1, 1]

/-- The number of bytes of its range a worker has not yet counted into
`task.Downloaded`; `c` is the worker's segment. -/
def Worker.remaining (c : ChunkInfo) : Worker → Int
  | Worker.idle => c.End - c.Start + 1
  | Worker.reading l => c.End - c.Start + 1 - l.downloaded
  | Worker.done => 0

/-- The bytes of all ranges not yet counted into `task.Downloaded`. -/
def potential (cs : List ChunkInfo) (workers : List Worker) : Int :=
  (List.zipWith Worker.remaining cs workers).sum

/-- No response to the range request of a segment of `cs` carries more bytes
than the segment's range `End - Start + 1`, counting the reads up to the
first one that returns `io.EOF` or an error. -/
def Bounded (envs : Nat → ChunkEnv) (url : String) (cs : List ChunkInfo) : Prop :=
  ∀ (i : Nat) (c0 : ChunkInfo) (resp : Response), cs[i]? = some c0 →
    (envs i).client (chunkRequest url c0) = some resp →
    ∀ K, (∀ k, k < K → (resp.Body k).err = none) →
      ((readBytes resp.Body (K + 1)).length : Int) ≤ c0.End - c0.Start + 1

/-- What the pool maintains for a worker over a segment `c0`: its local
counter `downloaded` is the number of bytes it has read, no read so far
returned an error, and its body never exceeds the range. -/
def ReadOk (c0 : ChunkInfo) : Worker → Prop
  | Worker.reading l =>
    l.downloaded = ((readBytes l.body l.k).length : Int) ∧
      (∀ k, k < l.k → (l.body k).err = none) ∧
      ∀ K, (∀ k, k < K → (l.body k).err = none) →
        ((readBytes l.body (K + 1)).length : Int) ≤ c0.End - c0.Start + 1
  | _ => True

/-- The byte budget of the worker phase over the segment list `cs`: the bytes
counted so far plus the bytes not yet counted never exceed the total size. -/
def BudgetOk (url : String) (cs : List ChunkInfo) (totalSize : Int) (p : Pool) : Prop :=
  p.s.task.URL = url ∧ p.s.task.TotalSize = totalSize ∧ p.workers.length = cs.length ∧
  (∀ (i : Nat) (c0 : ChunkInfo), cs[i]? = some c0 → ∃ w c, p.workers[i]? = some w ∧
    p.s.task.Chunks[i]? = some c ∧ c.Start = c0.Start ∧ c.End = c0.End ∧
    0 ≤ w.remaining c0 ∧ ReadOk c0 w) ∧
  0 ≤ p.s.task.Downloaded ∧
  p.s.task.Downloaded + potential cs p.workers ≤ totalSize

/-- A body that yields `first` in a read without error and then fails. -/
def bodyFailing (first : List UInt8) : Nat → ReadResult :=
  fun k => if k = 0 then { data := first, err := none }
    else { data := [], err := some ReadErr.other }

/-- A world for a resource of 4 bytes and two segments in which each worker
reads one byte and then meets a read error; the whole-file GET is answered
with the 4 bytes. -/
def failingWorld : World :=
  { serverWorld (clientOf 206 (bodyFailing [7])) "4" 2 with
    schedule := [0, 0, 0, 1, 1, 1],
    single := { requestErr := false, client := clientOf 200 (bodyOf [5, 6, 7, 8]),
                createErr := false } }

/-- A world for a resource of 4 bytes and two segments in which worker 0
receives its 2 bytes and worker 1 is answered with status 500. -/
def halfWorld : World :=
  { serverWorld noClient "4" 2 with
    chunk := fun i =>
      { requestErr := false,
        client := if i = 0 then clientOf 206 (bodyOf [5, 6]) else clientOf 500 (bodyOf []),
        createErr := false,
        polled := fun _ => "Downloading" } }

/-- The task as the run in `halfWorld` leaves it: 2 bytes counted, segment 0
`Completed`, segment 1 `Failed`, status `Failed`. -/
def halfTask : DownloadTask :=
  { freshTask "http://example.com/file.bin" with
    OutputFile := "/dl/file.bin", TotalSize := 4, Downloaded := 2, ChunkCount := 2,
    Chunks := [{ Index := 0, Start := 0, End := 1, Progress := ProgressVal.one,
                 Status := "Completed" },
               { Index := 1, Start := 2, End := 3, Progress := ProgressVal.zero,
                 Status := "Failed" }],
    Status := "Failed" }

/-- The state in which the run in `halfWorld` ends. -/
def halfState : State :=
  { task := halfTask,
    fs := (emptyFS.create (FileName.part "/dl/file.bin" 0)).write
      (FileName.part "/dl/file.bin" 0) [5, 6],
    trace := [Call.getFileInfo, Call.initializeChunks, Call.downloadChunk 0,
      Call.downloadChunk 1, Call.updateStats] }

/-- A state with one `Pending` segment `[0, 3]` of a 4-byte resource. -/
def oneChunkState : State :=
  { task := { probedTask 4 1 with
      Chunks := [{ Index := 0, Start := 0, End := 3, Progress := ProgressVal.zero,
                   Status := "Pending" }],
      Status := "Downloading" },
    fs := emptyFS, trace := [] }

/-- A chunk worker's environment with the given client and polled statuses. -/
def chunkEnvOf (client : Request → Option Response) (polled : Nat → String) : ChunkEnv :=
  { requestErr := false, client := client, createErr := false, polled := polled }

/-- A whole-file transfer's environment with the given client. -/
def singleEnvOf (client : Request → Option Response) : SingleEnv :=
  { requestErr := false, client := client, createErr := false }

/-- A body that yields `first` in a read without error, then fails once with
a non-EOF error, and then returns `io.EOF`. -/
def bodyErrThenEOF (first : List UInt8) : Nat → ReadResult :=
  fun k => if k = 0 then { data := first, err := none }
    else if k = 1 then { data := [], err := some ReadErr.other }
    else { data := [], err := some ReadErr.EOF }

/-! # Properties -/

/-! ## Partitioner -/

theorem tdiv_facts (T : Int) (n : Nat) (hT : 0 ≤ T) (hn : 1 ≤ n) :
    Int.tdiv T n = T / (n : Int) ∧ 0 ≤ T / (n : Int) ∧
      (n : Int) * (T / (n : Int)) ≤ T ∧ T < (n : Int) * (T / (n : Int)) + n := by
  have hn0 : (0 : Int) < n := by exact_mod_cast hn
  refine ⟨Int.tdiv_eq_ediv hT hn0.le, Int.ediv_nonneg hT hn0.le, ?_, ?_⟩
  · exact Int.mul_ediv_self_le hn0.ne'
  · have := Int.lt_ediv_add_one_mul_self T hn0
    linarith

theorem initializeChunks_some (task : DownloadTask) (h : 0 < task.ChunkCount) :
    initializeChunks task = some { task with
      Chunks := (List.range task.ChunkCount.toNat).map
        (mkChunk task.TotalSize task.ChunkCount (Int.tdiv task.TotalSize task.ChunkCount)) } := by
  unfold initializeChunks
  rw [if_neg (not_le.mpr h)]

theorem range_map_getElem? {α : Type} (f : Nat → α) (n i : Nat) :
    ((List.range n).map f)[i]? = if i < n then some (f i) else none := by
  by_cases h : i < n
  · simp [h, List.getElem?_range h]
  · have : (List.range n).length ≤ i := by simpa using h
    simp [h, List.getElem?_eq_none this]

/-- The segment list of a task with a positive chunk count, entry by entry. -/
theorem initializeChunks_getElem? (task : DownloadTask) (n : Nat) (hn : 1 ≤ n)
    (hc : task.ChunkCount = n) :
    ∃ task', initializeChunks task = some task' ∧
      task' = { task with Chunks := task'.Chunks } ∧
      task'.Chunks.length = n ∧
      ∀ i : Nat, task'.Chunks[i]? =
        if i < n then
          some (mkChunk task.TotalSize n (Int.tdiv task.TotalSize n) i)
        else none := by
  have hpos : 0 < task.ChunkCount := by rw [hc]; exact_mod_cast hn
  refine ⟨_, initializeChunks_some task hpos, rfl, ?_, ?_⟩
  · simp [hc]
  · intro i
    simp only [hc, Int.toNat_ofNat]
    exact range_map_getElem? _ n i

/-- C2: for every `totalSize ≥ 0` and `n ≥ 1`, `initializeChunks` produces
exactly `n` segments; segment `i` carries `Index i` and `Status "Pending"`;
with `size = floor (totalSize / n)`, segment `i < n-1` is
`[i*size, (i+1)*size - 1]` and the final segment is `[(n-1)*size, totalSize-1]`;
for `totalSize = 1005`, `n = 10` the ranges are `[0,99] .. [800,899]`, `[900,1004]`. -/
theorem initializeChunks_layout (task : DownloadTask) (n : Nat) (hn : 1 ≤ n)
    (hc : task.ChunkCount = n) (hT : 0 ≤ task.TotalSize) :
    (∃ task', initializeChunks task = some task' ∧
      task'.Chunks.length = n ∧
      (∀ i : Nat, i < n → ∃ c, task'.Chunks[i]? = some c ∧
        c.Index = i ∧ c.Status = "Pending" ∧
        c.Start = i * (task.TotalSize / n) ∧
        (i + 1 < n → c.End = (i + 1) * (task.TotalSize / n) - 1) ∧
        (i + 1 = n → c.Start = ((n : Int) - 1) * (task.TotalSize / n) ∧
          c.End = task.TotalSize - 1))) ∧
    (initializeChunks (probedTask 1005 10)).map
        (fun t => t.Chunks.map (fun c => (c.Index, c.Start, c.End, c.Status))) =
      some [(0, 0, 99, "Pending"), (1, 100, 199, "Pending"), (2, 200, 299, "Pending"),
        (3, 300, 399, "Pending"), (4, 400, 499, "Pending"), (5, 500, 599, "Pending"),
        (6, 600, 699, "Pending"), (7, 700, 799, "Pending"), (8, 800, 899, "Pending"),
        (9, 900, 1004, "Pending")] := by
  refine ⟨?_, by decide⟩
  obtain ⟨task', h1, -, h3, h4⟩ := initializeChunks_getElem? task n hn hc
  obtain ⟨hdiv, -, -, -⟩ := tdiv_facts task.TotalSize n hT hn
  refine ⟨task', h1, h3, ?_⟩
  intro i hi
  refine ⟨_, by rw [h4 i, if_pos hi], rfl, rfl, ?_, ?_, ?_⟩
  · simp only [mkChunk, hdiv]
  · intro hlt
    have hne : ¬ ((i : Int) = (n : Int) - 1) := by omega
    simp only [mkChunk, hdiv, if_neg hne]
    ring
  · intro heq
    have he : (i : Int) = (n : Int) - 1 := by omega
    simp only [mkChunk, hdiv, if_pos he, and_true]
    rw [he]

/-- The layout theorem at `totalSize = 1005`, `n = 10`. -/
theorem initializeChunks_layout_witness :
    (∃ task', initializeChunks (probedTask 1005 10) = some task' ∧
      task'.Chunks.length = 10 ∧
      (∀ i : Nat, i < 10 → ∃ c, task'.Chunks[i]? = some c ∧
        c.Index = i ∧ c.Status = "Pending" ∧
        c.Start = i * ((1005 : Int) / (10 : Nat)) ∧
        (i + 1 < 10 → c.End = (i + 1) * ((1005 : Int) / (10 : Nat)) - 1) ∧
        (i + 1 = 10 → c.Start = (((10 : Nat) : Int) - 1) * ((1005 : Int) / (10 : Nat)) ∧
          c.End = (1005 : Int) - 1))) :=
  (initializeChunks_layout (probedTask 1005 10) 10 (by decide) rfl (by decide)).1

theorem mul_le_mul_size {a b s : Int} (h : a ≤ b) (hs : 0 ≤ s) : a * s ≤ b * s :=
  mul_le_mul_of_nonneg_right h hs

/-- The segment that holds offset `x`: the quotient `x / size` below the final
segment's start, and the final segment from there on. -/
theorem mkChunk_cover_exists (T : Int) (n : Nat) (hn : 1 ≤ n) (hT : 0 ≤ T)
    (x : Int) (hx0 : 0 ≤ x) (hxT : x < T) :
    ∃ i : Nat, i < n ∧ (mkChunk T n (T / (n : Int)) i).covers x := by
  obtain ⟨-, hs0, hlo, -⟩ := tdiv_facts T n hT hn
  by_cases hlast : x < ((n : Int) - 1) * (T / (n : Int))
  · have hspos : 0 < T / (n : Int) := by
      rcases hs0.lt_or_eq with h | h
      · exact h
      · rw [← h] at hlast; simp at hlast; omega
    have hq0 : 0 ≤ x / (T / (n : Int)) := Int.ediv_nonneg hx0 hs0
    have hq1 : x / (T / (n : Int)) * (T / (n : Int)) ≤ x := Int.ediv_mul_le x hspos.ne'
    have hq2 : x < (x / (T / (n : Int)) + 1) * (T / (n : Int)) :=
      Int.lt_ediv_add_one_mul_self x hspos
    have hqn : x / (T / (n : Int)) < (n : Int) - 1 := by
      by_contra hcon
      have := mul_le_mul_size (not_lt.mp hcon) hs0
      omega
    refine ⟨(x / (T / (n : Int))).toNat, by omega, ?_⟩
    have hcast : (((x / (T / (n : Int))).toNat : Nat) : Int) = x / (T / (n : Int)) :=
      Int.toNat_of_nonneg hq0
    have hne : ¬ (x / (T / (n : Int)) = (n : Int) - 1) := by omega
    simp only [ChunkInfo.covers, mkChunk, hcast, if_neg hne]
    constructor
    · exact hq1
    · have : (x / (T / (n : Int)) + 1) * (T / (n : Int)) =
        x / (T / (n : Int)) * (T / (n : Int)) + T / (n : Int) := by ring
      omega
  · refine ⟨n - 1, by omega, ?_⟩
    have hcast : ((n - 1 : Nat) : Int) = (n : Int) - 1 := by omega
    simp only [ChunkInfo.covers, mkChunk, hcast, if_true]
    constructor
    · exact not_lt.mp hlast
    · omega

/-- Two segments that hold the same offset are the same segment. -/
theorem mkChunk_cover_unique (T : Int) (n : Nat) (hn : 1 ≤ n) (hT : 0 ≤ T)
    (x : Int) (i j : Nat) (hj : j < n) (hij : i < j)
    (hci : (mkChunk T n (T / (n : Int)) i).covers x)
    (hcj : (mkChunk T n (T / (n : Int)) j).covers x) : False := by
  obtain ⟨-, hs0, -, -⟩ := tdiv_facts T n hT hn
  have hne : ¬ ((i : Int) = (n : Int) - 1) := by omega
  simp only [ChunkInfo.covers, mkChunk, if_neg hne] at hci
  simp only [ChunkInfo.covers, mkChunk] at hcj
  have h1 : ((i : Int) + 1) * (T / (n : Int)) ≤ (j : Int) * (T / (n : Int)) :=
    mul_le_mul_size (by omega) hs0
  have h2 : ((i : Int) + 1) * (T / (n : Int)) =
      (i : Int) * (T / (n : Int)) + T / (n : Int) := by ring
  omega

/-- No segment holds an offset outside `[0, totalSize)`. -/
theorem mkChunk_cover_inside (T : Int) (n : Nat) (hn : 1 ≤ n) (hT : 0 ≤ T)
    (x : Int) (i : Nat) (hi : i < n)
    (hc : (mkChunk T n (T / (n : Int)) i).covers x) : 0 ≤ x ∧ x < T := by
  obtain ⟨-, hs0, hlo, -⟩ := tdiv_facts T n hT hn
  simp only [ChunkInfo.covers, mkChunk] at hc
  have h0 : 0 ≤ (i : Int) * (T / (n : Int)) := mul_nonneg (by omega) hs0
  refine ⟨by omega, ?_⟩
  by_cases hl : (i : Int) = (n : Int) - 1
  · rw [if_pos hl] at hc; omega
  · rw [if_neg hl] at hc
    have h1 : ((i : Int) + 1) * (T / (n : Int)) ≤ (n : Int) * (T / (n : Int)) :=
      mul_le_mul_size (by omega) hs0
    have h2 : ((i : Int) + 1) * (T / (n : Int)) =
        (i : Int) * (T / (n : Int)) + T / (n : Int) := by ring
    omega

/-- For a non-negative total size every value `initializeChunks` computes lies
between `-1` and the total size, so the `int64` arithmetic of the Go code
never wraps around. -/
theorem initializeChunks_no_overflow (T : Int) (n : Nat) (hn : 1 ≤ n) (hT : 0 ≤ T)
    (i : Nat) (hi : i < n) :
    0 ≤ Int.tdiv T n ∧ Int.tdiv T n ≤ T ∧
    0 ≤ (i : Int) * Int.tdiv T n ∧ (i : Int) * Int.tdiv T n ≤ T ∧
    -1 ≤ (i : Int) * Int.tdiv T n + Int.tdiv T n - 1 ∧
    (i : Int) * Int.tdiv T n + Int.tdiv T n - 1 ≤ T - 1 := by
  obtain ⟨hdiv, hs0, hlo, -⟩ := tdiv_facts T n hT hn
  rw [hdiv]
  have h0 : 0 ≤ (i : Int) * (T / (n : Int)) := mul_nonneg (by omega) hs0
  have h1 : ((i : Int) + 1) * (T / (n : Int)) ≤ (n : Int) * (T / (n : Int)) :=
    mul_le_mul_size (by omega) hs0
  have h2 : ((i : Int) + 1) * (T / (n : Int)) =
      (i : Int) * (T / (n : Int)) + T / (n : Int) := by ring
  refine ⟨hs0, ?_, h0, ?_, ?_, ?_⟩ <;> omega

/-- C1 (as amended): for every `totalSize > 0` and `n ≥ 1` the `n` ranges of
`initializeChunks` cover `[0, totalSize)` exactly (each offset in exactly one
range, no range with an offset outside), the Start offsets never decrease with
the segment index, and they increase strictly when `n ≤ totalSize`. -/
theorem initializeChunks_partition (task : DownloadTask) (n : Nat) (hn : 1 ≤ n)
    (hc : task.ChunkCount = n) (hT : 0 < task.TotalSize) :
    ∃ task', initializeChunks task = some task' ∧
      task'.Chunks.length = n ∧
      CoversExactly task.TotalSize task'.Chunks ∧
      task'.Chunks.Pairwise (fun a b => a.Start ≤ b.Start) ∧
      ((n : Int) ≤ task.TotalSize →
        task'.Chunks.Pairwise (fun a b => a.Start < b.Start)) := by
  have hpos : 0 < task.ChunkCount := by rw [hc]; exact_mod_cast hn
  obtain ⟨task', h1, -, h3, h4⟩ := initializeChunks_getElem? task n hn hc
  obtain ⟨hdiv, hs0, hlo, hhi⟩ := tdiv_facts task.TotalSize n hT.le hn
  have hch : task'.Chunks = (List.range n).map
      (mkChunk task.TotalSize n (task.TotalSize / (n : Int))) := by
    have := initializeChunks_some task hpos
    rw [h1] at this
    rw [Option.some.inj this]
    simp only [hc, Int.toNat_ofNat, hdiv]
  rw [hdiv] at h4
  refine ⟨task', h1, h3, ⟨?_, ?_⟩, ?_, ?_⟩
  · intro x hx0 hxT
    obtain ⟨i, hi, hcov⟩ := mkChunk_cover_exists task.TotalSize n hn hT.le x hx0 hxT
    refine ⟨i, ⟨_, by rw [h4 i, if_pos hi], hcov⟩, ?_⟩
    rintro j ⟨c, hjc, hcj⟩
    rw [h4 j] at hjc
    by_cases hj : j < n
    · rw [if_pos hj] at hjc
      have hcj2 : (mkChunk task.TotalSize n (task.TotalSize / (n : Int)) j).covers x := by
        rw [Option.some.inj hjc]; exact hcj
      rcases Nat.lt_trichotomy j i with h | h | h
      · exact (mkChunk_cover_unique task.TotalSize n hn hT.le x j i hi h hcj2 hcov).elim
      · exact h
      · exact (mkChunk_cover_unique task.TotalSize n hn hT.le x i j hj h hcov hcj2).elim
    · rw [if_neg hj] at hjc; exact (Option.noConfusion hjc)
  · intro c hcmem x hcov
    rw [hch, List.mem_map] at hcmem
    obtain ⟨i, hi, rfl⟩ := hcmem
    exact mkChunk_cover_inside task.TotalSize n hn hT.le x i (List.mem_range.mp hi) hcov
  · rw [hch, List.pairwise_map]
    refine (List.pairwise_lt_range n).imp ?_
    intro a b hab
    simp only [mkChunk]
    exact mul_le_mul_size (by omega) hs0
  · intro hle
    have hspos : 0 < task.TotalSize / (n : Int) := by
      rcases hs0.lt_or_eq with h | h
      · exact h
      · rw [← h] at hhi; omega
    rw [hch, List.pairwise_map]
    refine (List.pairwise_lt_range n).imp ?_
    intro a b hab
    simp only [mkChunk]
    exact mul_lt_mul_of_pos_right (by exact_mod_cast hab) hspos

/-- The partition theorem at `totalSize = 1005`, `n = 10`. -/
theorem initializeChunks_partition_witness :
    ∃ task', initializeChunks (probedTask 1005 10) = some task' ∧
      task'.Chunks.length = 10 ∧
      CoversExactly 1005 task'.Chunks ∧
      task'.Chunks.Pairwise (fun a b => a.Start ≤ b.Start) ∧
      ((((10 : Nat) : Int)) ≤ (1005 : Int) →
        task'.Chunks.Pairwise (fun a b => a.Start < b.Start)) :=
  initializeChunks_partition (probedTask 1005 10) 10 (by decide) rfl (by decide)

/-- C1 as stated fails for `totalSize = 5`, `n = 10`: the ten Start offsets are
all `0` (the ranges are nine times `[0,-1]` and then `[0,4]`), so they are not
strictly increasing with the segment index. -/
theorem initializeChunks_starts_not_strict :
    (initializeChunks (probedTask 5 10)).map
        (fun t => t.Chunks.map (fun c => (c.Start, c.End))) =
      some [(0, -1), (0, -1), (0, -1), (0, -1), (0, -1), (0, -1), (0, -1), (0, -1),
        (0, -1), (0, 4)] ∧
    ∃ task', initializeChunks (probedTask 5 10) = some task' ∧
      ¬ task'.Chunks.Pairwise (fun a b => a.Start < b.Start) := by
  refine ⟨by decide, _, initializeChunks_some (probedTask 5 10) (by decide), ?_⟩
  decide

/-! ## Threshold policy -/

theorem successCount_le (chunks : List ChunkInfo) : successCount chunks ≤ chunks.length :=
  List.length_filter_le _ _

/-- C3: with `n ≥ 1` segments of which `k` are `Completed` at the join,
`startDownload` takes exactly one of three paths: `k = n` runs `mergeChunks`,
then (the merge having succeeded) `calculateChecksums`, and ends `Completed`;
`n/2 ≤ k < n` ends `Failed` without the fallback; `k < n/2` runs the fallback
`downloadSingleFile` and nothing else.  For `n = 10`: 10 gives the merge path,
6 gives `Failed`, 4 the fallback; for `n = 1`, `k = 0` the outcome is `Failed`. -/
theorem afterJoin_threshold (lib : Lib) (w : World) (fuel : Nat) (s : State)
    (n k : Nat) (hn : 1 ≤ n) (hlen : s.task.Chunks.length = n)
    (hk : successCount s.task.Chunks = k) :
    (k = n ∨ (n / 2 ≤ k ∧ k < n) ∨ k < n / 2) ∧
    (k = n → ∃ s', afterJoin lib w fuel s = some s' ∧
      (w.mergeCreateErr = false →
        s'.trace = s.trace ++ [Call.mergeChunks, Call.calculateChecksums, Call.updateStats] ∧
        s'.task.Status = "Completed" ∧ s'.fs = (mergeChunks false s).1.fs) ∧
      (w.mergeCreateErr = true →
        s'.trace = s.trace ++ [Call.mergeChunks] ∧ s'.task.Status = "Failed" ∧
        s'.fs = s.fs)) ∧
    (n / 2 ≤ k → k < n → ∃ s', afterJoin lib w fuel s = some s' ∧
      s'.trace = s.trace ++ [Call.updateStats] ∧ s'.task.Status = "Failed" ∧
      s'.fs = s.fs) ∧
    (k < n / 2 → afterJoin lib w fuel s = downloadSingleFile w.single fuel s) ∧
    (n = 10 → k = 10 → w.mergeCreateErr = false →
      ∃ s', afterJoin lib w fuel s = some s' ∧ s'.task.Status = "Completed") ∧
    (n = 10 → k = 6 → ∃ s', afterJoin lib w fuel s = some s' ∧
      s'.task.Status = "Failed" ∧ s'.trace = s.trace ++ [Call.updateStats]) ∧
    (n = 10 → k = 4 → afterJoin lib w fuel s = downloadSingleFile w.single fuel s) ∧
    (n = 1 → k = 0 → ∃ s', afterJoin lib w fuel s = some s' ∧
      s'.task.Status = "Failed" ∧ s'.trace = s.trace ++ [Call.updateStats]) := by
  have hle : k ≤ n := by rw [← hk, ← hlen]; exact successCount_le _
  have hfull : k = n → ∃ s', afterJoin lib w fuel s = some s' ∧
      (w.mergeCreateErr = false →
        s'.trace = s.trace ++ [Call.mergeChunks, Call.calculateChecksums, Call.updateStats] ∧
        s'.task.Status = "Completed" ∧ s'.fs = (mergeChunks false s).1.fs) ∧
      (w.mergeCreateErr = true →
        s'.trace = s.trace ++ [Call.mergeChunks] ∧ s'.task.Status = "Failed" ∧
        s'.fs = s.fs) := by
    intro hkn
    have h1 : ¬ successCount s.task.Chunks < s.task.Chunks.length / 2 := by
      rw [hk, hlen]; omega
    have h2 : successCount s.task.Chunks = s.task.Chunks.length := by rw [hk, hlen, hkn]
    cases hm : w.mergeCreateErr
    · refine ⟨_, by simp only [afterJoin, if_neg h1, if_pos h2, hm, mergeChunks]; rfl, ?_, ?_⟩
      · intro _
        refine ⟨?_, rfl, ?_⟩
        · simp only [State.call, calculateChecksums]
          split <;> simp
        · simp only [State.call, calculateChecksums, mergeChunks]
          split <;> simp
      · intro h; exact absurd h (by simp)
    · refine ⟨_, by simp only [afterJoin, if_neg h1, if_pos h2, hm, mergeChunks]; rfl, ?_, ?_⟩
      · intro h; exact absurd h (by simp)
      · intro _
        exact ⟨rfl, rfl, rfl⟩
  have hmid : n / 2 ≤ k → k < n → ∃ s', afterJoin lib w fuel s = some s' ∧
      s'.trace = s.trace ++ [Call.updateStats] ∧ s'.task.Status = "Failed" ∧
      s'.fs = s.fs := by
    intro hlo hhi
    have h1 : ¬ successCount s.task.Chunks < s.task.Chunks.length / 2 := by
      rw [hk, hlen]; omega
    have h2 : ¬ successCount s.task.Chunks = s.task.Chunks.length := by
      rw [hk, hlen]; omega
    have he : afterJoin lib w fuel s = some (({ s with
        task := { s.task with Status := "Failed" } } : State).call Call.updateStats) := by
      simp only [afterJoin, if_neg h1, if_neg h2]
    exact ⟨_, he, rfl, rfl, rfl⟩
  have hlow : k < n / 2 → afterJoin lib w fuel s = downloadSingleFile w.single fuel s := by
    intro hlt
    have h1 : successCount s.task.Chunks < s.task.Chunks.length / 2 := by
      rw [hk, hlen]; exact hlt
    simp only [afterJoin, if_pos h1]
  refine ⟨by omega, hfull, hmid, hlow, ?_, ?_, ?_, ?_⟩
  · intro h10 hk10 hm
    obtain ⟨s', hs', hok, -⟩ := hfull (by omega)
    exact ⟨s', hs', (hok hm).2.1⟩
  · intro h10 hk6
    obtain ⟨s', hs', htr, hst, -⟩ := hmid (by omega) (by omega)
    exact ⟨s', hs', hst, htr⟩
  · intro h10 hk4
    exact hlow (by omega)
  · intro h1 hk0
    obtain ⟨s', hs', htr, hst, -⟩ := hmid (by omega) (by omega)
    exact ⟨s', hs', hst, htr⟩

/-- The threshold theorem at a single segment that is not `Completed`: the
task ends `Failed` and the fallback is not run. -/
theorem afterJoin_threshold_witness :
    ∃ s', afterJoin plainLib deadWorld 0 (joinedState ["Failed"]) = some s' ∧
      s'.task.Status = "Failed" ∧
      s'.trace = (joinedState ["Failed"]).trace ++ [Call.updateStats] :=
  (afterJoin_threshold plainLib deadWorld 0 (joinedState ["Failed"]) 1 0
    (by decide) (by decide) (by decide)).2.2.2.2.2.2.2 rfl rfl

/-! ## Prober -/

/-- C5 (the code at the failing input): the HEAD request is answered with
status 405, or fails, and the range probe is answered with `Content-Length: 1`
and `Content-Range: bytes 0-0/1005`.  `getFileInfo` returns without error and
stores `TotalSize = 1`, the value of `Content-Length`; the total `1005` of
`Content-Range` is stored only when the response has no `Content-Length`. -/
theorem getFileInfo_range_probe_size :
    getFileInfo plainLib plainDownloader
        (probeEnvOf (some (headerResponse 405 [])) (some rangeProbeResponse))
        (freshTask "http://example.com/file.bin") =
      ({ freshTask "http://example.com/file.bin" with
          TotalSize := 1, OutputFile := "/dl/file.bin" }, false) ∧
    (getFileInfo plainLib plainDownloader (probeEnvOf none (some rangeProbeResponse))
        (freshTask "http://example.com/file.bin")).1.TotalSize = 1 ∧
    (getFileInfo plainLib plainDownloader
        (probeEnvOf none (some (headerResponse 206 [("Content-Range", "bytes 0-0/1005")])))
        (freshTask "http://example.com/file.bin")).1.TotalSize = 1005 := by
  refine ⟨by decide, by decide, by decide⟩

theorem probeResponse_none_iff (env : ProbeEnv) (url : String) :
    probeResponse env url = none ↔
      (∀ resp, env.client (headRequest url) = some resp → resp.StatusCode ≠ 200) ∧
      env.client (rangeProbeRequest url) = none := by
  unfold probeResponse
  cases hh : env.client (headRequest url) with
  | none => simp
  | some resp =>
    by_cases hc : resp.StatusCode = 200
    · simp [hc]
    · simp [hc]

/-- What the block `// Get size` stores: `ParseInt`'s value of a present
`Content-Length`, else of the part after the slash of a two-part
`Content-Range`, and otherwise nothing; `ParseInt`'s value of text that is not
a number is `0`. -/
theorem probeSize_totalSize (resp : Response) (task : DownloadTask) :
    (headerGet resp.Header "Content-Length" ≠ "" →
      (probeSize resp task).TotalSize = parseInt (headerGet resp.Header "Content-Length")) ∧
    (headerGet resp.Header "Content-Length" = "" →
      headerGet resp.Header "Content-Range" ≠ "" →
      (stringsSplitSlash (headerGet resp.Header "Content-Range")).length = 2 →
      (probeSize resp task).TotalSize =
        parseInt ((stringsSplitSlash (headerGet resp.Header "Content-Range")).getD 1 "")) ∧
    (headerGet resp.Header "Content-Length" = "" →
      (headerGet resp.Header "Content-Range" = "" ∨
        (stringsSplitSlash (headerGet resp.Header "Content-Range")).length ≠ 2) →
      (probeSize resp task).TotalSize = task.TotalSize) ∧
    parseInt "abc" = 0 ∧ parseInt "*" = 0 ∧ parseInt "" = 0 := by
  refine ⟨?_, ?_, ?_, by decide, by decide, by decide⟩
  · intro h
    simp only [probeSize, h, ne_eq, not_false_eq_true, if_true]
  · intro h1 h2 h3
    simp only [probeSize, h1, h2, h3, ne_eq, not_true_eq_false, not_false_eq_true, if_true,
      if_false]
  · intro h1 h2
    rcases h2 with h2 | h2
    · simp only [probeSize, h1, h2, ne_eq, not_true_eq_false, if_false]
    · by_cases hcr : headerGet resp.Header "Content-Range" = ""
      · simp only [probeSize, h1, hcr, ne_eq, not_true_eq_false, if_false]
      · simp only [probeSize, h1, hcr, h2, ne_eq, not_true_eq_false, not_false_eq_true,
          if_true, if_false]

/-- C6 (as amended): `getFileInfo` returns an error exactly when the HEAD
request cannot be built, or the HEAD request fails or is answered with a
status other than 200 and the range-probe GET fails, or the output folder
cannot be created; once a response has arrived and the output folder can be
created it returns no error, whatever length headers the response carries.
Whenever it returns an error, `startDownload` returns with status `Failed`
having called neither `initializeChunks` nor `downloadChunk` nor any function
other than `getFileInfo`, and the file system is untouched. -/
theorem getFileInfo_error (lib : Lib) (d : Downloader) (w : World) (fuel : Nat) (s : State) :
    ((getFileInfo lib d w.probe s.task).2 = true ↔
      (w.probe.requestErr = true ∨
       ((∀ resp, w.probe.client (headRequest s.task.URL) = some resp → resp.StatusCode ≠ 200) ∧
         w.probe.client (rangeProbeRequest s.task.URL) = none) ∨
       w.probe.mkdirErr = true)) ∧
    (∀ resp, w.probe.requestErr = false → probeResponse w.probe s.task.URL = some resp →
      w.probe.mkdirErr = false → (getFileInfo lib d w.probe s.task).2 = false) ∧
    ((getFileInfo lib d w.probe s.task).2 = true →
      ∃ s', startDownload lib d w fuel s = some s' ∧ s'.task.Status = "Failed" ∧
        s'.trace = s.trace ++ [Call.getFileInfo] ∧ s'.fs = s.fs) := by
  have hno : ∀ resp, w.probe.requestErr = false →
      probeResponse w.probe s.task.URL = some resp → w.probe.mkdirErr = false →
      (getFileInfo lib d w.probe s.task).2 = false := by
    intro resp hreq hresp hmk
    unfold getFileInfo
    simp only [hreq, hresp, hmk]
    rfl
  refine ⟨?_, hno, ?_⟩
  · rw [← probeResponse_none_iff]
    unfold getFileInfo
    cases hr : w.probe.requestErr
    · cases hp : probeResponse w.probe s.task.URL with
      | none => simp
      | some resp =>
        cases hm : w.probe.mkdirErr <;> simp
    · simp
  · intro herr
    have hg : getFileInfo lib d w.probe s.task =
        ((getFileInfo lib d w.probe s.task).1, true) := by rw [← herr]
    have he : startDownload lib d w fuel s = some { s.call Call.getFileInfo with
        task := { (getFileInfo lib d w.probe s.task).1 with Status := "Failed" } } := by
      unfold startDownload
      simp only [State.call]
      rw [hg]
    exact ⟨_, he, rfl, rfl, rfl⟩

/-- The error theorem in a world where every request fails. -/
theorem getFileInfo_error_witness :
    ∃ s', startDownload plainLib plainDownloader deadWorld 0
        (freshState "http://example.com/file.bin") = some s' ∧
      s'.task.Status = "Failed" ∧
      s'.trace = (freshState "http://example.com/file.bin").trace ++ [Call.getFileInfo] ∧
      s'.fs = (freshState "http://example.com/file.bin").fs :=
  (getFileInfo_error plainLib plainDownloader deadWorld 0
    (freshState "http://example.com/file.bin")).2.2 (by decide)

/-- C6 as stated fails when the HEAD request is answered with status 200 and
neither `Content-Length` nor `Content-Range`: `getFileInfo` returns no error
and leaves `TotalSize = 0`, and `startDownload` goes on to call
`initializeChunks` and to start the ten chunk workers. -/
theorem getFileInfo_no_length_no_error :
    (getFileInfo plainLib plainDownloader noLengthWorld.probe
        (freshTask "http://example.com/file.bin")).2 = false ∧
    (getFileInfo plainLib plainDownloader noLengthWorld.probe
        (freshTask "http://example.com/file.bin")).1.TotalSize = 0 ∧
    (startDownload plainLib plainDownloader noLengthWorld 0
        (freshState "http://example.com/file.bin")).map (fun s => s.trace) =
      some [Call.getFileInfo, Call.initializeChunks, Call.downloadChunk 0,
        Call.downloadChunk 1, Call.downloadChunk 2, Call.downloadChunk 3,
        Call.downloadChunk 4, Call.downloadChunk 5, Call.downloadChunk 6,
        Call.downloadChunk 7, Call.downloadChunk 8, Call.downloadChunk 9,
        Call.downloadSingleFile] := by
  refine ⟨by decide, by decide, by decide⟩

theorem takeWhile_dropWhile_nil (l : List Char) :
    (l.dropWhile (fun c => c == '/')).takeWhile (fun c => c != '/') = [] ↔
      ∀ c ∈ l, c = '/' := by
  induction l with
  | nil => simp
  | cons a l ih =>
    by_cases ha : a = '/'
    · subst ha
      simpa using ih
    · have h1 : (a == '/') = false := by simpa using ha
      have h2 : (a != '/') = true := by simpa using ha
      simp [List.dropWhile_cons, List.takeWhile_cons, h1, h2, ha]

/-- The function `path.Base` returns `"/"` exactly for a non-empty string made
of slashes only. -/
theorem pathBase_eq_slash_iff (p : String) :
    pathBase p = "/" ↔ p ≠ "" ∧ ∀ c ∈ p.toList, c = '/' := by
  unfold pathBase
  by_cases hp : p = ""
  · simp [hp]
  · rw [if_neg hp]
    simp only []
    by_cases hl : (p.toList.reverse.dropWhile (fun c => c == '/')).takeWhile
        (fun c => c != '/') = []
    · rw [if_pos hl]
      have := (takeWhile_dropWhile_nil p.toList.reverse).mp hl
      simp only [List.mem_reverse] at this
      exact ⟨fun _ => ⟨hp, this⟩, fun _ => rfl⟩
    · rw [if_neg hl]
      have hne : ¬ ∀ c ∈ p.toList, c = '/' := by
        intro hall
        apply hl
        rw [takeWhile_dropWhile_nil]
        simpa using hall
      constructor
      · intro heq
        exfalso
        have hdata : ((p.toList.reverse.dropWhile (fun c => c == '/')).takeWhile
            (fun c => c != '/')).reverse = ['/'] := by
          have := congrArg String.data heq
          simpa using this
        have hmem : '/' ∈ (p.toList.reverse.dropWhile (fun c => c == '/')).takeWhile
            (fun c => c != '/') := by
          rw [← List.mem_reverse, hdata]; simp
        have := List.mem_takeWhile_imp hmem
        simp at this
      · intro h; exact absurd h.2 hne

theorem indexOfChars_drop (sub : List Char) :
    ∀ (l : List Char) (k : Nat), indexOfChars sub l = some k →
      l.drop k = sub ++ l.drop (k + sub.length)
  | [], k, h => by
    unfold indexOfChars at h
    by_cases hs : sub = []
    · simp [hs]
    · simp [hs] at h
  | c :: cs, k, h => by
    unfold indexOfChars at h
    by_cases hp : sub.isPrefixOf (c :: cs) = true
    · rw [if_pos hp] at h
      have hk : k = 0 := by simpa using h.symm
      subst hk
      obtain ⟨t, ht⟩ := List.isPrefixOf_iff_prefix.mp hp
      rw [← ht]
      simp
    · rw [if_neg hp] at h
      cases hr : indexOfChars sub cs with
      | none => rw [hr] at h; simp at h
      | some j =>
        rw [hr] at h
        have hk : k = j + 1 := by simpa using h.symm
        subst hk
        have := indexOfChars_drop sub cs j hr
        simpa [Nat.add_right_comm] using this

/-- No occurrence of `sub` starts before the offset `indexOfChars` returns. -/
theorem indexOfChars_first (sub : List Char) :
    ∀ (l : List Char) (k : Nat), indexOfChars sub l = some k →
      ∀ j, j < k → ¬ sub <+: l.drop j
  | [], k, h => by
    unfold indexOfChars at h
    by_cases hs : sub = []
    · rw [if_pos hs] at h
      have hk : k = 0 := by simpa using h.symm
      intro j hj
      omega
    · simp [hs] at h
  | c :: cs, k, h => by
    unfold indexOfChars at h
    by_cases hp : sub.isPrefixOf (c :: cs) = true
    · rw [if_pos hp] at h
      have hk : k = 0 := by simpa using h.symm
      intro j hj
      omega
    · rw [if_neg hp] at h
      cases hr : indexOfChars sub cs with
      | none => rw [hr] at h; simp at h
      | some k' =>
        rw [hr] at h
        have hk : k = k' + 1 := by simpa using h.symm
        subst hk
        intro j hj
        cases j with
        | zero =>
          intro hpre
          exact hp (List.isPrefixOf_iff_prefix.mpr hpre)
        | succ j' =>
          simp only [List.drop_succ_cons]
          exact indexOfChars_first sub cs k' hr j' (by omega)

/-- Whenever `sub` occurs in `l`, `indexOfChars` returns an offset, not
beyond the occurrence. -/
theorem indexOfChars_of_occurrence (sub : List Char) :
    ∀ (l : List Char) (j : Nat), sub <+: l.drop j →
      ∃ k, k ≤ j ∧ indexOfChars sub l = some k
  | [], j, h => by
    have hs : sub = [] := by
      simp only [List.drop_nil] at h
      exact List.prefix_nil.mp h
    exact ⟨0, Nat.zero_le j, by simp [indexOfChars, hs]⟩
  | c :: cs, j, h => by
    by_cases hp : sub.isPrefixOf (c :: cs) = true
    · exact ⟨0, Nat.zero_le j, by simp only [indexOfChars, if_pos hp]⟩
    · cases j with
      | zero =>
        exact absurd (List.isPrefixOf_iff_prefix.mpr (by simpa using h)) hp
      | succ j' =>
        simp only [List.drop_succ_cons] at h
        obtain ⟨k, hk, hidx⟩ := indexOfChars_of_occurrence sub cs j' h
        exact ⟨k + 1, by omega, by simp only [indexOfChars, if_neg hp, hidx, Option.map_some']⟩

/-- C7 (as amended): on a probe that ends up with a response whose
`Content-Disposition` header is absent or contains `filename=`, the filename
`getFileInfo` resolves is (a) when the header contains `filename=`: the whole
rest of the header after the first occurrence of `filename=`, trimmed of
leading and trailing double quotes; (b) `path.Base` of the URL string when the
response has no `Content-Disposition` header and that base is neither `"/"`
nor `"."`; (c) `"download_"` followed by the task ID when the response has no
`Content-Disposition` header and the base is `"/"` or `"."`, the base being
`"/"` exactly for a non-empty URL made of slashes only.  `task.OutputFile` is
the output folder joined with that filename. -/
theorem getFileInfo_filename (lib : Lib) (d : Downloader) (env : ProbeEnv)
    (task : DownloadTask) (resp : Response) (hreq : env.requestErr = false)
    (hresp : probeResponse env task.URL = some resp) :
    (∀ j, "filename=".toList <+:
        (headerGet resp.Header "Content-Disposition").toList.drop j →
      ∃ idx, idx ≤ j ∧
        (∀ j', j' < idx → ¬ "filename=".toList <+:
          (headerGet resp.Header "Content-Disposition").toList.drop j') ∧
        (headerGet resp.Header "Content-Disposition").toList.drop idx =
          "filename=".toList ++
            (headerGet resp.Header "Content-Disposition").toList.drop (idx + 9) ∧
        (getFileInfo lib d env task).1.OutputFile = lib.join d.outputFolder
          (stringsTrimQuote
            ((headerGet resp.Header "Content-Disposition").toList.drop (idx + 9)))) ∧
    (headerGet resp.Header "Content-Disposition" = "" →
      pathBase task.URL ≠ "/" → pathBase task.URL ≠ "." →
      (getFileInfo lib d env task).1.OutputFile =
        lib.join d.outputFolder (pathBase task.URL)) ∧
    (headerGet resp.Header "Content-Disposition" = "" →
      (pathBase task.URL = "/" ∨ pathBase task.URL = ".") →
      (getFileInfo lib d env task).1.OutputFile =
        lib.join d.outputFolder ("download_" ++ task.ID)) ∧
    (pathBase task.URL = "/" ↔ task.URL ≠ "" ∧ ∀ c ∈ task.URL.toList, c = '/') := by
  have hout : (getFileInfo lib d env task).1.OutputFile =
      lib.join d.outputFolder (probeName resp (probeSize resp task)).OutputFile := by
    unfold getFileInfo
    rw [hreq, hresp]
    cases env.mkdirErr <;> rfl
  have hurl : (probeSize resp task).URL = task.URL := by
    unfold probeSize; simp only []; split_ifs <;> rfl
  have hid : (probeSize resp task).ID = task.ID := by
    unfold probeSize; simp only []; split_ifs <;> rfl
  refine ⟨?_, ?_, ?_, pathBase_eq_slash_iff task.URL⟩
  · intro j hocc
    obtain ⟨idx, hle, hidx⟩ := indexOfChars_of_occurrence "filename=".toList _ j hocc
    have hne : headerGet resp.Header "Content-Disposition" ≠ "" := by
      intro hempty
      rw [hempty] at hocc
      have : "filename=".toList = [] := by
        have h2 : ("" : String).toList.drop j = [] := by simp
        rw [h2] at hocc
        exact List.prefix_nil.mp hocc
      exact absurd this (by decide)
    refine ⟨idx, hle, indexOfChars_first "filename=".toList _ idx hidx, ?_, ?_⟩
    · have := indexOfChars_drop "filename=".toList _ idx hidx
      simpa using this
    · rw [hout]
      unfold probeName
      have hidx' : stringsIndex (headerGet resp.Header "Content-Disposition") "filename=" =
          some idx := hidx
      simp only [hidx', if_pos hne]
  · intro hcd h1 h2
    rw [hout]
    unfold probeName
    simp only [hcd, hurl, ne_eq, not_true_eq_false, if_false, h1, h2, or_self]
  · intro hcd h12
    rw [hout]
    unfold probeName
    simp only [hcd, hurl, hid, ne_eq, not_true_eq_false, if_false, if_pos h12]

/-- The filename theorem for a HEAD response with status 200 and the header
`Content-Disposition: attachment; filename="report.pdf"`, in which
`filename=` occurs at offset 12; the resolved path is `/dl/report.pdf`. -/
theorem getFileInfo_filename_witness :
    (∃ idx, idx ≤ 12 ∧
      (∀ j', j' < idx → ¬ "filename=".toList <+:
        (headerGet (headerResponse 200
          [("Content-Disposition", "attachment; filename=\"report.pdf\"")]).Header
          "Content-Disposition").toList.drop j') ∧
      (headerGet (headerResponse 200
          [("Content-Disposition", "attachment; filename=\"report.pdf\"")]).Header
          "Content-Disposition").toList.drop idx =
        "filename=".toList ++
          (headerGet (headerResponse 200
            [("Content-Disposition", "attachment; filename=\"report.pdf\"")]).Header
            "Content-Disposition").toList.drop (idx + 9) ∧
      (getFileInfo plainLib plainDownloader
        (probeEnvOf (some (headerResponse 200
          [("Content-Disposition", "attachment; filename=\"report.pdf\"")])) none)
        (freshTask "http://example.com/get?id=7")).1.OutputFile =
        plainLib.join plainDownloader.outputFolder
          (stringsTrimQuote
            ((headerGet (headerResponse 200
              [("Content-Disposition", "attachment; filename=\"report.pdf\"")]).Header
              "Content-Disposition").toList.drop (idx + 9)))) ∧
    (getFileInfo plainLib plainDownloader
        (probeEnvOf (some (headerResponse 200
          [("Content-Disposition", "attachment; filename=\"report.pdf\"")])) none)
        (freshTask "http://example.com/get?id=7")).1.OutputFile = "/dl/report.pdf" :=
  ⟨(getFileInfo_filename plainLib plainDownloader
      (probeEnvOf (some (headerResponse 200
        [("Content-Disposition", "attachment; filename=\"report.pdf\"")])) none)
      (freshTask "http://example.com/get?id=7")
      (headerResponse 200 [("Content-Disposition", "attachment; filename=\"report.pdf\"")])
      rfl rfl).1 12 (by decide), by decide⟩

/-- C7 as stated fails: for the URL `http://example.com/`, whose path is `/`,
and a response without `Content-Disposition` the resolved filename is the host
`example.com`, not the synthesized `download_task_1` (likewise for
`http://example.com`, whose path is empty); for the header
`Content-Disposition: inline`, which has no filename parameter, the filename
stays empty instead of becoming the last path segment `a.zip`, and
`task.OutputFile` is the output folder itself; and for the header
`Content-Disposition: attachment; filename="a.txt"; size=5` the filename is
the whole rest of the header, `a.txt"; size=5`, not the filename parameter
`a.txt`. -/
theorem getFileInfo_filename_not_synthesized :
    (probeName (headerResponse 200 []) (freshTask "http://example.com/")).OutputFile
      = "example.com" ∧
    (getFileInfo plainLib plainDownloader (probeEnvOf (some (headerResponse 200 [])) none)
        (freshTask "http://example.com/")).1.OutputFile = "/dl/example.com" ∧
    (probeName (headerResponse 200 []) (freshTask "http://example.com")).OutputFile
      = "example.com" ∧
    (probeName (headerResponse 200 [("Content-Disposition", "inline")])
        (freshTask "http://example.com/a.zip")).OutputFile = "" ∧
    (probeName (headerResponse 200 []) (freshTask "http://example.com/a.zip")).OutputFile
      = "a.zip" ∧
    (probeName (headerResponse 200 []) (freshTask "/")).OutputFile = "download_task_1" ∧
    (getFileInfo plainLib plainDownloader
        (probeEnvOf (some (headerResponse 200 [("Content-Disposition", "inline")])) none)
        (freshTask "http://example.com/a.zip")).1.OutputFile = "/dl" ∧
    (probeName
        (headerResponse 200
          [("Content-Disposition", "attachment; filename=\"a.txt\"; size=5")])
        (freshTask "http://example.com/a.zip")).OutputFile = "a.txt\"; size=5" := by
  refine ⟨by decide, by decide, by decide, by decide, by decide, by decide, by decide,
    by decide⟩

/-! ## Removal -/

/-- C10 (as amended): for every task whose status is `"Preparing..."` or
`"Downloading"`, `removeTask` writes `"Cancelled"` to the task's status and
then deletes the task from the task map; a task with any other status,
`"Paused"` included, is deleted from the map with its status unchanged. -/
theorem removeTask_cancels (d : Downloader) (task : DownloadTask) :
    ((task.Status = "Downloading" ∨ task.Status = "Preparing...") →
      (removeTask d task).2.1 = { task with Status := "Cancelled" } ∧
      (removeTask d task).2.2 = [true, false]) ∧
    (¬ (task.Status = "Downloading" ∨ task.Status = "Preparing...") →
      (removeTask d task).2.1 = task ∧ (removeTask d task).2.2 = [false]) ∧
    task.ID ∉ (removeTask d task).1.tasks := by
  refine ⟨?_, ?_, ?_⟩
  · intro h
    have hc : (task.Status == "Downloading" || task.Status == "Preparing...") = true := by
      simpa using h
    simp [removeTask, hc]
  · intro h
    have hc : (task.Status == "Downloading" || task.Status == "Preparing...") = false := by
      simpa using h
    simp [removeTask, hc]
  · have hid : (if (task.Status == "Downloading" || task.Status == "Preparing...") = true
        then { task with Status := "Cancelled" } else task).ID = task.ID := by
      split_ifs <;> rfl
    simp only [removeTask, hid]
    simp

/-- The removal theorem for a task that is `Downloading`. -/
theorem removeTask_cancels_witness :
    (removeTask plainDownloader { probedTask 1005 10 with Status := "Downloading" }).2.1 =
        { probedTask 1005 10 with Status := "Cancelled" } ∧
      (removeTask plainDownloader { probedTask 1005 10 with Status := "Downloading" }).2.2 =
        [true, false] :=
  (removeTask_cancels plainDownloader
    { probedTask 1005 10 with Status := "Downloading" }).1 (by decide)

/-- C10 as stated fails for a task whose status is `"Paused"`: `removeTask`
deletes it from the task map and never writes `"Cancelled"`, so its status is
still `"Paused"`. -/
theorem removeTask_paused_not_cancelled :
    removeTask plainDownloader { probedTask 1005 10 with Status := "Paused" } =
      ({ plainDownloader with tasks := [] },
       { probedTask 1005 10 with Status := "Paused" }, [false]) := by
  decide

/-! ## Cancellation -/

/-- C9 (the code at the failing inputs): the task's status is set to
`"Cancelled"` while its workers run.  With two segments whose workers both
observe the signal, no segment completes, `startDownload` runs the whole-file
fallback and returns with status `Completed`; with one of two segments
completed it returns with status `Failed`; with a single segment whose last
read ends the stream, `mergeChunks` is invoked and the status at the return is
`Completed`.  In no case is the status at the return `Cancelled`. -/
theorem startDownload_cancelled_overridden :
    (startDownload plainLib plainDownloader cancelledWorld 1 (freshStateWith 2)).map
        (fun s => (s.task.Status, s.task.Chunks.map (fun c => c.Status), s.trace)) =
      some ("Completed", ["Pending", "Pending"],
        [Call.getFileInfo, Call.initializeChunks, Call.downloadChunk 0, Call.downloadChunk 1,
          Call.downloadSingleFile]) ∧
    (startDownload plainLib plainDownloader cancelledHalfWorld 1 (freshStateWith 2)).map
        (fun s => (s.task.Status, s.task.Chunks.map (fun c => c.Status), s.trace)) =
      some ("Failed", ["Completed", "Pending"],
        [Call.getFileInfo, Call.initializeChunks, Call.downloadChunk 0, Call.downloadChunk 1,
          Call.updateStats]) ∧
    (startDownload plainLib plainDownloader cancelledLateWorld 1 (freshStateWith 1)).map
        (fun s => (s.task.Status, s.task.Chunks.map (fun c => c.Status), s.trace)) =
      some ("Completed", ["Completed"],
        [Call.getFileInfo, Call.initializeChunks, Call.downloadChunk 0, Call.mergeChunks,
          Call.calculateChecksums, Call.updateStats]) := by
  refine ⟨by decide, by decide, by decide⟩

/-! ## Merge -/

/-- C4 as stated fails.  (1) Against a server that ignores the `Range` header
and answers every request with status 200 and the whole resource: for the
resource `[5, 6]` and two segments both workers complete, both sinks hold
`[5, 6]`, and the file written by `mergeChunks` is `[5, 6, 5, 6]`, not the
resource.  (2) Against a server that honours the `Range` header, on a device
that stores nothing in the destination: both segments complete, the sinks hold
`[5]` and `[6]`, the bytes their workers received, `mergeChunks` returns no
error, and the destination is empty. -/
theorem merge_not_identical_whole_body :
    (startDownload plainLib plainDownloader (serverWorld (clientOf 200 (bodyOf [5, 6])) "2" 2)
        1 (freshStateWith 2)).map
      (fun s => (s.task.Status, s.task.Chunks.map (fun c => (c.Start, c.End, c.Status)),
        s.fs (FileName.output s.task.OutputFile))) =
      some ("Completed", [(0, 0, "Completed"), (1, 1, "Completed")], some [5, 6, 5, 6]) ∧
    ((twoBytePool noDestinationDisk).joined,
      (twoBytePool noDestinationDisk).s.task.Chunks.map (fun c => c.Status)) =
      (true, ["Completed", "Completed"]) ∧
    ((twoBytePool noDestinationDisk).s.fs (FileName.part "/dl/file.bin" 0),
      (twoBytePool noDestinationDisk).s.fs (FileName.part "/dl/file.bin" 1)) =
      (some [5], some [6]) ∧
    ((mergeChunks false (twoBytePool noDestinationDisk).s).2,
      (mergeChunks false (twoBytePool noDestinationDisk).s).1.fs
        (FileName.output "/dl/file.bin")) = (false, some []) ∧
    (mergeChunks false (twoBytePool reliableDisk).s).1.fs (FileName.output "/dl/file.bin") =
      some [5, 6] := by
  refine ⟨by decide, by decide, by decide, by decide, by decide⟩

/-! ### Steps of the worker pool -/

theorem Pool.run_invariant (envs : Nat → ChunkEnv) (P : Pool → Prop)
    (hstep : ∀ p i, P p → P (Pool.step envs p i)) :
    ∀ (schedule : List Nat) (p : Pool), P p → P (Pool.run envs p schedule) := by
  intro schedule
  induction schedule with
  | nil => intro p hp; exact hp
  | cons i rest ih =>
    intro p hp
    exact ih (Pool.step envs p i) (hstep p i hp)

/-- A step of worker `i` changes nothing, or enters `downloadChunk`, or runs
one iteration of its read loop. -/
theorem Pool.step_cases (envs : Nat → ChunkEnv) (p : Pool) (i : Nat) :
    Pool.step envs p i = p ∨
    (p.workers[i]? = some Worker.idle ∧
      Pool.step envs p i =
        { s := (downloadChunkEnter (envs i) p.s i).1,
          workers := p.workers.set i (Worker.after (downloadChunkEnter (envs i) p.s i).2) }) ∨
    (∃ l, p.workers[i]? = some (Worker.reading l) ∧
      Pool.step envs p i =
        { s := (downloadChunkIter (envs i) i l p.s).1,
          workers := p.workers.set i (Worker.after (downloadChunkIter (envs i) i l p.s).2) }) := by
  unfold Pool.step
  cases hw : p.workers[i]? with
  | none => left; rfl
  | some w =>
    cases w with
    | idle =>
      by_cases hsem : (p.workers.filter Worker.isReading).length < 3
      · right; left
        refine ⟨rfl, ?_⟩
        simp only [if_pos hsem]
      · left
        simp only [if_neg hsem]
    | reading l =>
      right; right
      exact ⟨l, rfl, rfl⟩
    | done => left; rfl

/-- The two ways `downloadChunk` leaves its code before the read loop: the
segment is marked `Failed` and the function returns, or the response has
status 206 or 200, the sink has been created and the loop starts. -/
theorem downloadChunkEnter_cases (env : ChunkEnv) (s : State) (i : Nat) (c : ChunkInfo)
    (hc : s.task.Chunks[i]? = some c) :
    downloadChunkEnter env s i =
      ((s.call (Call.downloadChunk i)).updateChunk i (fun c => { c with Status := "Failed" }),
        none) ∨
    ∃ resp, env.client (chunkRequest s.task.URL c) = some resp ∧
      downloadChunkEnter env s i =
        ({ s.call (Call.downloadChunk i) with
            fs := s.fs.create (FileName.part s.task.OutputFile c.Index) },
         some { body := resp.Body, tempFile := FileName.part s.task.OutputFile c.Index,
                totalBytes := c.End - c.Start + 1, k := 0, downloaded := 0 }) := by
  unfold downloadChunkEnter
  simp only [State.call, hc]
  cases hr : env.requestErr
  · cases hcl : env.client (chunkRequest s.task.URL c) with
    | none => left; simp
    | some resp =>
      by_cases hst : resp.StatusCode ≠ 206 ∧ resp.StatusCode ≠ 200
      · left; simp [hst]
      · cases hce : env.createErr
        · right
          exact ⟨resp, rfl, by simp [hst]⟩
        · left; simp [hst]
  · left; simp

theorem modify_getElem?_ne {α : Type} (f : α → α) (l : List α) (i j : Nat) (h : j ≠ i) :
    (l.modify f i)[j]? = l[j]? := by
  rw [List.getElem?_modify]
  cases l[j]? with
  | none => rfl
  | some a => simp [Ne.symm h]

theorem modify_getElem?_eq {α : Type} (f : α → α) (l : List α) (i : Nat) (a : α)
    (h : l[i]? = some a) : (l.modify f i)[i]? = some (f a) := by
  rw [List.getElem?_modify, h]
  simp

theorem part_ne (out : String) (i j : Nat) (h : j ≠ i) :
    FileName.part out (j : Int) ≠ FileName.part out (i : Int) := by
  intro heq
  injection heq with _ hidx
  exact h (by exact_mod_cast hidx)

/-- The store block leaves every file but the sink alone. -/
theorem downloadChunkStore_fs_ne (i : Nat) (l : ReadLoop) (s : State) (g : FileName)
    (h : g ≠ l.tempFile) : (downloadChunkStore i l s).fs g = s.fs g := by
  unfold downloadChunkStore
  simp only []
  split_ifs
  · simp [State.updateChunk, FS.store, FS.write, h]
  · rfl

/-- On a device that stores every write in full, the store block appends the
bytes of the read to the sink. -/
theorem downloadChunkStore_fs_eq (i : Nat) (l : ReadLoop) (s : State) (old : List UInt8)
    (hdisk : ∀ f old data, s.disk f old data = data)
    (h : s.fs l.tempFile = some old) :
    (downloadChunkStore i l s).fs l.tempFile = some (old ++ (l.body l.k).data) := by
  unfold downloadChunkStore
  simp only []
  split_ifs with hn
  · simp [State.updateChunk, FS.store, FS.write, h, hdisk]
  · have : (l.body l.k).data = [] := by
      have h0 : (l.body l.k).data.length = 0 := by
        have : ¬ (0 : Int) < ((l.body l.k).data.length : Int) := hn
        omega
      exact List.length_eq_zero.mp h0
    rw [this, List.append_nil, h]

theorem downloadChunkStore_fields (i : Nat) (l : ReadLoop) (s : State) :
    (downloadChunkStore i l s).task.OutputFile = s.task.OutputFile ∧
    (downloadChunkStore i l s).task.URL = s.task.URL ∧
    (downloadChunkStore i l s).task.TotalSize = s.task.TotalSize ∧
    (downloadChunkStore i l s).trace = s.trace := by
  unfold downloadChunkStore
  simp only []
  split_ifs <;> exact ⟨rfl, rfl, rfl, rfl⟩

theorem downloadChunkStore_chunk_ne (i : Nat) (l : ReadLoop) (s : State) (j : Nat)
    (h : j ≠ i) : (downloadChunkStore i l s).task.Chunks[j]? = s.task.Chunks[j]? := by
  unfold downloadChunkStore
  simp only []
  split_ifs
  · exact modify_getElem?_ne _ _ i j h
  · rfl

theorem downloadChunkStore_chunk_eq (i : Nat) (l : ReadLoop) (s : State) (c : ChunkInfo)
    (h : s.task.Chunks[i]? = some c) :
    ∃ c', (downloadChunkStore i l s).task.Chunks[i]? = some c' ∧ c'.Index = c.Index ∧
      c'.Start = c.Start ∧ c'.End = c.End ∧ c'.Status = c.Status := by
  unfold downloadChunkStore
  simp only []
  split_ifs
  · exact ⟨_, modify_getElem?_eq _ _ i c h, rfl, rfl, rfl, rfl⟩
  · exact ⟨c, h, rfl, rfl, rfl, rfl⟩

/-- The ways one iteration of the read loop ends, by the error of the read and
the status the worker polls. -/
theorem downloadChunkIter_cases (env : ChunkEnv) (i : Nat) (l : ReadLoop) (s : State) :
    ((l.body l.k).err = some ReadErr.EOF ∧
      downloadChunkIter env i l s =
        ((downloadChunkStore i l s).updateChunk i
          (fun c => { c with Status := "Completed", Progress := ProgressVal.one }), none)) ∨
    ((l.body l.k).err = some ReadErr.other ∧
      downloadChunkIter env i l s =
        ((downloadChunkStore i l s).updateChunk i (fun c => { c with Status := "Failed" }),
          none)) ∨
    ((l.body l.k).err = none ∧ env.polled l.k = "Cancelled" ∧
      downloadChunkIter env i l s = (downloadChunkStore i l s, none)) ∨
    ((l.body l.k).err = none ∧ env.polled l.k ≠ "Cancelled" ∧
      ∃ d, downloadChunkIter env i l s =
        (downloadChunkStore i l s, some { l with k := l.k + 1, downloaded := d }) ∧
        d = l.downloaded + ((l.body l.k).data.length : Int)) := by
  unfold downloadChunkIter
  simp only []
  cases he : (l.body l.k).err with
  | none =>
    by_cases hp : env.polled l.k = "Cancelled"
    · right; right; left
      exact ⟨rfl, hp, by simp [hp]⟩
    · right; right; right
      refine ⟨rfl, hp, if (0 : Int) < ((l.body l.k).data.length : Int)
        then l.downloaded + ((l.body l.k).data.length : Int) else l.downloaded,
        by simp only [if_neg hp], ?_⟩
      split_ifs with hn
      · rfl
      · have : ((l.body l.k).data.length : Int) = 0 := by omega
        rw [this, add_zero]
  | some e =>
    cases e with
    | EOF => left; exact ⟨rfl, rfl⟩
    | other => right; left; exact ⟨rfl, rfl⟩

/-- A change of the pool that touches only worker `i`, segment `i` and sink
`i`, and re-establishes `SinkOk` there, keeps `SinksOk`. -/
theorem SinksOk_update (out url : String) (cs : List ChunkInfo) (want : Nat → List UInt8)
    (p : Pool) (i : Nat) (s' : State) (w' : Worker) (hinv : SinksOk out url cs want p)
    (hout : s'.task.OutputFile = p.s.task.OutputFile) (hurl : s'.task.URL = p.s.task.URL)
    (hchunks : ∀ j, j ≠ i → s'.task.Chunks[j]? = p.s.task.Chunks[j]?)
    (hfs : ∀ j : Nat, j ≠ i → s'.fs (FileName.part out j) = p.s.fs (FileName.part out j))
    (hi : ∀ c0 w c, cs[i]? = some c0 → p.workers[i]? = some w →
      p.s.task.Chunks[i]? = some c → c.Index = (i : Int) → c.Start = c0.Start →
      c.End = c0.End → SinkOk out (want i) i w c (p.s.fs (FileName.part out i)) →
      ∃ c', s'.task.Chunks[i]? = some c' ∧ c'.Index = (i : Int) ∧ c'.Start = c0.Start ∧
        c'.End = c0.End ∧ SinkOk out (want i) i w' c' (s'.fs (FileName.part out i))) :
    SinksOk out url cs want { s := s', workers := p.workers.set i w' } := by
  obtain ⟨h1, h2, h3, h4⟩ := hinv
  refine ⟨hout.trans h1, hurl.trans h2, by simp [h3], ?_⟩
  intro j c0 hc0
  obtain ⟨w, c, hw, hc, hidx, hst, hen, hok⟩ := h4 j c0 hc0
  by_cases hji : j = i
  · subst hji
    obtain ⟨c', hc', h5, h6, h7, h8⟩ := hi c0 w c hc0 hw hc hidx hst hen hok
    have hlt : j < p.workers.length := by
      rw [h3]
      exact (List.getElem?_eq_some.mp hc0).1
    exact ⟨w', c', by simp [List.getElem?_set_self hlt], hc', h5, h6, h7, h8⟩
  · refine ⟨w, c, ?_, (hchunks j hji).trans hc, hidx, hst, hen, ?_⟩
    · simp only []
      rw [List.getElem?_set_ne (Ne.symm hji)]
      exact hw
    · simp only []
      rw [hfs j hji]
      exact hok

theorem chunkRequest_congr (url : String) (c c0 : ChunkInfo) (hs : c.Start = c0.Start)
    (he : c.End = c0.End) : chunkRequest url c = chunkRequest url c0 := by
  simp [chunkRequest, hs, he]

/-- Every step of the pool keeps `SinksOk` when the responses are honest. -/
theorem SinksOk_step (out url : String) (cs : List ChunkInfo) (want : Nat → List UInt8)
    (envs : Nat → ChunkEnv) (hh : Honest envs url cs want) (p : Pool) (i : Nat)
    (hdisk : ∀ f old data, p.s.disk f old data = data)
    (hinv : SinksOk out url cs want p) : SinksOk out url cs want (Pool.step envs p i) := by
  rcases Pool.step_cases envs p i with h | ⟨hw, h⟩ | ⟨l, hw, h⟩
  · rw [h]; exact hinv
  · rw [h]
    have hlt : i < cs.length := by
      rw [← hinv.2.2.1]
      exact (List.getElem?_eq_some.mp hw).1
    obtain ⟨w0, c, hw0, hc, hidx, hst, hen, -⟩ := hinv.2.2.2 i cs[i] (List.getElem?_eq_getElem hlt)
    rcases downloadChunkEnter_cases (envs i) p.s i c hc with he | ⟨resp, hresp, he⟩
    · rw [he]
      refine SinksOk_update out url cs want p i _ _ hinv rfl rfl ?_ ?_ ?_
      · intro j hj
        exact modify_getElem?_ne _ _ i j hj
      · intro j hj; rfl
      · intro c0 w c1 hc0 hw1 hc1 hi1 hs1 he1 _
        exact ⟨_, modify_getElem?_eq _ _ i c1 hc1, hi1, hs1, he1,
          fun hcon => absurd (show "Failed" = "Completed" from hcon) (by decide)⟩
    · rw [he]
      refine SinksOk_update out url cs want p i _ _ hinv rfl rfl ?_ ?_ ?_
      · intro j hj; rfl
      · intro j hj
        simp only [FS.create]
        rw [hinv.1, hidx, if_neg (part_ne out i j hj)]
      · intro c0 w c1 hc0 hw1 hc1 hi1 hs1 he1 hok
        have hcc : c1 = c := Option.some.inj (hc1.symm.trans hc)
        subst hcc
        have hwi : w = Worker.idle := Option.some.inj (hw1.symm.trans hw)
        subst hwi
        refine ⟨c1, hc1, hi1, hs1, he1, ?_⟩
        simp only [Worker.after, SinkOk, FS.create]
        refine ⟨hok, ?_, ?_, ?_, ?_⟩
        · rw [hinv.1, hi1]
        · apply hh i c0 resp hc0
          rw [← chunkRequest_congr url c1 c0 hs1 he1, ← hinv.2.1]
          exact hresp
        · intro k hk; exact absurd hk (Nat.not_lt_zero k)
        · rw [hinv.1, hi1, if_pos rfl]; rfl
  · rw [h]
    have hlt : i < cs.length := by
      rw [← hinv.2.2.1]
      exact (List.getElem?_eq_some.mp hw).1
    obtain ⟨w0, c, hw0, hc, hidx, hst, hen, hok0⟩ :=
      hinv.2.2.2 i cs[i] (List.getElem?_eq_getElem hlt)
    have hw0l : w0 = Worker.reading l := Option.some.inj (hw0.symm.trans hw)
    subst hw0l
    obtain ⟨hpend, htemp, hdel, hpre, hfile⟩ := hok0
    obtain ⟨hf1, hf2, -, -⟩ := downloadChunkStore_fields i l p.s
    obtain ⟨c', hc', hi', hs', he', hst'⟩ := downloadChunkStore_chunk_eq i l p.s c hc
    have hfile' : (downloadChunkStore i l p.s).fs (FileName.part out i) =
        some (readBytes l.body (l.k + 1)) := by
      have := downloadChunkStore_fs_eq i l p.s _ hdisk (by rw [htemp]; exact hfile)
      rw [htemp] at this
      exact this
    have hfsne : ∀ j : Nat, j ≠ i → (downloadChunkStore i l p.s).fs (FileName.part out j) =
        p.s.fs (FileName.part out j) := by
      intro j hj
      apply downloadChunkStore_fs_ne
      rw [htemp]
      exact part_ne out i j hj
    have hcne : ∀ j, j ≠ i → (downloadChunkStore i l p.s).task.Chunks[j]? =
        p.s.task.Chunks[j]? := fun j hj => downloadChunkStore_chunk_ne i l p.s j hj
    have hkeep : ∀ c0 w c1, cs[i]? = some c0 → p.workers[i]? = some w →
        p.s.task.Chunks[i]? = some c1 → c1.Index = (i : Int) → c1.Start = c0.Start →
        c1.End = c0.End → c'.Index = (i : Int) ∧ c'.Start = c0.Start ∧ c'.End = c0.End := by
      intro c0 w c1 _ _ hc1 hi1 hs1 he1
      have hcc : c1 = c := Option.some.inj (hc1.symm.trans hc)
      subst hcc
      exact ⟨hi'.trans hi1, hs'.trans hs1, he'.trans he1⟩
    rcases downloadChunkIter_cases (envs i) i l p.s with
      ⟨herr, he⟩ | ⟨herr, he⟩ | ⟨herr, hpoll, he⟩ | ⟨herr, hpoll, d, he, -⟩
    · rw [he]
      refine SinksOk_update out url cs want p i _ _ hinv hf1 hf2 ?_ hfsne ?_
      · intro j hj
        exact (modify_getElem?_ne _ _ i j hj).trans (hcne j hj)
      · intro c0 w c1 hc0 hw1 hc1 hi1 hs1 he1 _
        obtain ⟨k1, k2, k3⟩ := hkeep c0 w c1 hc0 hw1 hc1 hi1 hs1 he1
        refine ⟨_, modify_getElem?_eq _ _ i c' hc', k1, k2, k3, ?_⟩
        intro _
        simp only [State.updateChunk]
        rw [hfile']
        exact congrArg some (hdel l.k hpre herr)
    · rw [he]
      refine SinksOk_update out url cs want p i _ _ hinv hf1 hf2 ?_ hfsne ?_
      · intro j hj
        exact (modify_getElem?_ne _ _ i j hj).trans (hcne j hj)
      · intro c0 w c1 hc0 hw1 hc1 hi1 hs1 he1 _
        obtain ⟨k1, k2, k3⟩ := hkeep c0 w c1 hc0 hw1 hc1 hi1 hs1 he1
        exact ⟨_, modify_getElem?_eq _ _ i c' hc', k1, k2, k3,
          fun hcon => absurd (show "Failed" = "Completed" from hcon) (by decide)⟩
    · rw [he]
      refine SinksOk_update out url cs want p i _ _ hinv hf1 hf2 hcne hfsne ?_
      · intro c0 w c1 hc0 hw1 hc1 hi1 hs1 he1 _
        obtain ⟨k1, k2, k3⟩ := hkeep c0 w c1 hc0 hw1 hc1 hi1 hs1 he1
        refine ⟨c', hc', k1, k2, k3, ?_⟩
        intro hcon
        rw [hst', hpend] at hcon
        exact absurd hcon (by decide)
    · rw [he]
      refine SinksOk_update out url cs want p i _ _ hinv hf1 hf2 hcne hfsne ?_
      · intro c0 w c1 hc0 hw1 hc1 hi1 hs1 he1 _
        obtain ⟨k1, k2, k3⟩ := hkeep c0 w c1 hc0 hw1 hc1 hi1 hs1 he1
        refine ⟨c', hc', k1, k2, k3, ?_⟩
        simp only [Worker.after, SinkOk]
        refine ⟨hst'.trans hpend, htemp, hdel, ?_, hfile'⟩
        intro k hk
        rcases Nat.lt_succ_iff_lt_or_eq.mp hk with hlt' | heq
        · exact hpre k hlt'
        · rw [heq]; exact herr

/-- The pool at the launch of the workers satisfies `SinksOk`. -/
theorem SinksOk_start (want : Nat → List UInt8) (s : State)
    (hidx : ∀ (i : Nat) (c : ChunkInfo), s.task.Chunks[i]? = some c →
      c.Index = (i : Int) ∧ c.Status = "Pending") :
    SinksOk s.task.OutputFile s.task.URL s.task.Chunks want (Pool.start s) := by
  refine ⟨rfl, rfl, by simp [Pool.start], ?_⟩
  intro i c0 hc0
  refine ⟨Worker.idle, c0, ?_, hc0, (hidx i c0 hc0).1, rfl, rfl, (hidx i c0 hc0).2⟩
  simp only [Pool.start, List.getElem?_map, hc0, Option.map_some']

/-- Once every worker has returned and every segment is `Completed`, every
sink holds the bytes its response delivered. -/
theorem SinksOk_joined (out url : String) (cs : List ChunkInfo) (want : Nat → List UInt8)
    (p : Pool) (hinv : SinksOk out url cs want p) (hjoin : p.joined = true)
    (hall : successCount p.s.task.Chunks = p.s.task.Chunks.length) :
    ∀ i, i < cs.length → p.s.fs (FileName.part out i) = some (want i) := by
  intro i hi
  obtain ⟨w, c, hw, hc, -, -, -, hok⟩ := hinv.2.2.2 i cs[i] (List.getElem?_eq_getElem hi)
  have hdone : w.isDone = true := by
    have := List.all_eq_true.mp hjoin w (List.getElem?_mem hw)
    exact this
  have hcomp : c.Status = "Completed" := by
    have := (List.filter_length_eq_length.mp hall) c (List.getElem?_mem hc)
    simpa using this
  cases w with
  | idle => simp [Worker.isDone] at hdone
  | reading l => simp [Worker.isDone] at hdone
  | done => exact hok hcomp

/-- The loop of `mergeChunks` over sinks that all exist, on a device that
stores every copy in full: the destination receives the sinks in index order. -/
theorem mergeStep_fold (disk : Disk) (out : String) (want : Nat → List UInt8) (n : Nat)
    (fs : FS) (acc : List UInt8) (hdisk : ∀ f old data, disk f old data = data)
    (hparts : ∀ i, i < n → fs (FileName.part out i) = some (want i))
    (hout : fs (FileName.output out) = some acc) :
    ∀ m, m ≤ n →
      ((List.range m).foldl (mergeStep disk out) fs) (FileName.output out) =
          some (acc ++ joinUpTo want m) ∧
      ∀ i, m ≤ i → i < n →
        ((List.range m).foldl (mergeStep disk out) fs) (FileName.part out i) =
          some (want i) := by
  intro m
  induction m with
  | zero =>
    intro _
    exact ⟨by simp [joinUpTo, hout], fun i _ hi => hparts i hi⟩
  | succ m ih =>
    intro hm
    obtain ⟨h1, h2⟩ := ih (by omega)
    rw [List.range_succ, List.foldl_append]
    simp only [List.foldl_cons, List.foldl_nil]
    have hpm := h2 m (le_refl m) (by omega)
    constructor
    · simp only [mergeStep, hpm, FS.remove, FS.store, FS.write, h1, hdisk]
      simp [joinUpTo]
    · intro i hmi hin
      have hne : FileName.part out (i : Int) ≠ FileName.part out (m : Int) :=
        part_ne out m i (by omega)
      simp only [mergeStep, hpm, FS.remove, FS.store, FS.write, if_neg hne]
      simp only [reduceCtorEq, if_false]
      exact h2 i (by omega) hin

theorem slice_nat (r : List UInt8) (a len : Nat) :
    slice r (a : Int) ((a : Int) + (len : Int) - 1) = (r.drop a).take len := by
  have h : ((a : Int) + (len : Int) - 1 - (a : Int) + 1) = (len : Int) := by ring
  simp only [slice, h, Int.toNat_ofNat]

/-- The ranges of `initializeChunks`, cut out of a resource of `totalSize`
bytes and put one after the other, give the resource back. -/
theorem joinUpTo_mkChunk (r : List UInt8) (n : Nat) (hn : 1 ≤ n) :
    joinUpTo (wantOf r ((List.range n).map
      (mkChunk r.length n (Int.tdiv r.length n)))) n = r := by
  obtain ⟨hdiv, hs0, hlo, -⟩ := tdiv_facts r.length n (by omega) hn
  obtain ⟨sz, hsz⟩ := Int.eq_ofNat_of_zero_le hs0
  rw [hdiv, hsz]
  have hlo' : n * sz ≤ r.length := by
    rw [hsz] at hlo
    exact_mod_cast hlo
  have hwant : ∀ i, i < n → wantOf r ((List.range n).map (mkChunk r.length n sz)) i =
      if i + 1 = n then r.drop (i * sz) else (r.drop (i * sz)).take sz := by
    intro i hi
    simp only [wantOf, range_map_getElem?, if_pos hi, mkChunk]
    by_cases hl : i + 1 = n
    · have hl' : (i : Int) = (n : Int) - 1 := by omega
      rw [if_pos hl', if_pos hl]
      have hlen : ((r.length : Int) - 1) =
          ((i * sz : Nat) : Int) + ((r.length - i * sz : Nat) : Int) - 1 := by
        have : i * sz ≤ r.length := le_trans (Nat.mul_le_mul_right sz (by omega)) hlo'
        omega
      have hcast : (i : Int) * (sz : Int) = ((i * sz : Nat) : Int) := by push_cast; ring
      rw [hcast, hlen, slice_nat]
      apply List.take_of_length_le
      simp
    · have hl' : ¬ ((i : Int) = (n : Int) - 1) := by omega
      rw [if_neg hl', if_neg hl]
      have hcast : (i : Int) * (sz : Int) = ((i * sz : Nat) : Int) := by push_cast; ring
      rw [hcast, slice_nat]
  have hpre : ∀ m, m + 1 ≤ n →
      joinUpTo (wantOf r ((List.range n).map (mkChunk r.length n sz))) m = r.take (m * sz) := by
    intro m
    induction m with
    | zero => intro _; simp [joinUpTo]
    | succ m ih =>
      intro hm
      rw [joinUpTo, ih (by omega), hwant m (by omega), if_neg (by omega)]
      rw [Nat.succ_mul, List.take_add]
  obtain ⟨m, rfl⟩ : ∃ m, n = m + 1 := ⟨n - 1, by omega⟩
  rw [joinUpTo, hpre m (le_refl _), hwant m (by omega), if_pos rfl]
  exact List.take_append_drop _ _

theorem downloadChunkEnter_fields (env : ChunkEnv) (s : State) (i : Nat) :
    (downloadChunkEnter env s i).1.task.ChunkCount = s.task.ChunkCount ∧
    (downloadChunkEnter env s i).1.task.TotalSize = s.task.TotalSize ∧
    (downloadChunkEnter env s i).1.task.Downloaded = s.task.Downloaded := by
  cases hc : s.task.Chunks[i]? with
  | none =>
    unfold downloadChunkEnter
    simp [State.call, hc]
  | some c =>
    rcases downloadChunkEnter_cases env s i c hc with he | ⟨resp, -, he⟩ <;>
    · rw [he]
      exact ⟨rfl, rfl, rfl⟩

theorem downloadChunkStore_chunkCount (i : Nat) (l : ReadLoop) (s : State) :
    (downloadChunkStore i l s).task.ChunkCount = s.task.ChunkCount := by
  unfold downloadChunkStore
  simp only []
  split_ifs <;> rfl

theorem downloadChunkIter_chunkCount (env : ChunkEnv) (i : Nat) (l : ReadLoop) (s : State) :
    (downloadChunkIter env i l s).1.task.ChunkCount = s.task.ChunkCount := by
  rcases downloadChunkIter_cases env i l s with
    ⟨-, he⟩ | ⟨-, he⟩ | ⟨-, -, he⟩ | ⟨-, -, d, he, -⟩ <;>
  · rw [he]
    exact downloadChunkStore_chunkCount i l s

/-- The workers never change the task's chunk count. -/
theorem Pool.run_chunkCount (envs : Nat → ChunkEnv) (schedule : List Nat) (p : Pool) :
    (Pool.run envs p schedule).s.task.ChunkCount = p.s.task.ChunkCount := by
  refine Pool.run_invariant envs (fun q => q.s.task.ChunkCount = p.s.task.ChunkCount)
    ?_ schedule p rfl
  intro q i hq
  rcases Pool.step_cases envs q i with h | ⟨-, h⟩ | ⟨l, -, h⟩
  · rw [h]; exact hq
  · rw [h]; exact (downloadChunkEnter_fields (envs i) q.s i).1.trans hq
  · rw [h]; exact (downloadChunkIter_chunkCount (envs i) i l q.s).trans hq

theorem downloadChunkEnter_disk (env : ChunkEnv) (s : State) (i : Nat) :
    (downloadChunkEnter env s i).1.disk = s.disk := by
  cases hc : s.task.Chunks[i]? with
  | none =>
    unfold downloadChunkEnter
    simp [State.call, hc]
  | some c =>
    rcases downloadChunkEnter_cases env s i c hc with he | ⟨resp, -, he⟩ <;>
    · rw [he]
      rfl

theorem downloadChunkStore_disk (i : Nat) (l : ReadLoop) (s : State) :
    (downloadChunkStore i l s).disk = s.disk := by
  unfold downloadChunkStore
  simp only []
  split_ifs <;> rfl

theorem downloadChunkIter_disk (env : ChunkEnv) (i : Nat) (l : ReadLoop) (s : State) :
    (downloadChunkIter env i l s).1.disk = s.disk := by
  rcases downloadChunkIter_cases env i l s with
    ⟨-, he⟩ | ⟨-, he⟩ | ⟨-, -, he⟩ | ⟨-, -, d, he, -⟩ <;>
  · rw [he]
    exact downloadChunkStore_disk i l s

/-- The workers never change the storage device. -/
theorem Pool.step_disk (envs : Nat → ChunkEnv) (p : Pool) (i : Nat) :
    (Pool.step envs p i).s.disk = p.s.disk := by
  rcases Pool.step_cases envs p i with h | ⟨-, h⟩ | ⟨l, -, h⟩
  · rw [h]
  · rw [h]; exact downloadChunkEnter_disk (envs i) p.s i
  · rw [h]; exact downloadChunkIter_disk (envs i) i l p.s

/-- C4 (as amended): for every resource `r` of `totalSize` bytes and every
`n ≥ 1`, if every response body delivers exactly the bytes of `r` at the
offsets `Start_i .. End_i` of its segment (as a server that honours the
`Range` header does) and every write stores all its bytes, so that each sink
holds the bytes its worker received and each copy into the destination is
complete, then for every interleaving of the workers after which all workers
have returned and all `n` segments are `Completed`, the destination file
written by `mergeChunks` is the resource `r`. -/
theorem mergeChunks_identical (r : List UInt8) (n : Nat) (hn : 1 ≤ n)
    (envs : Nat → ChunkEnv) (schedule : List Nat) (s : State) (task' : DownloadTask)
    (hT : s.task.TotalSize = r.length) (hc : s.task.ChunkCount = n)
    (hinit : initializeChunks s.task = some task')
    (hh : Honest envs s.task.URL task'.Chunks (wantOf r task'.Chunks))
    (hdisk : ∀ f old data, s.disk f old data = data)
    (hjoin : (Pool.run envs
      (Pool.start { s with task := { task' with Status := "Downloading" } })
      schedule).joined = true)
    (hall : successCount (Pool.run envs
        (Pool.start { s with task := { task' with Status := "Downloading" } })
        schedule).s.task.Chunks =
      (Pool.run envs
        (Pool.start { s with task := { task' with Status := "Downloading" } })
        schedule).s.task.Chunks.length) :
    (mergeChunks false (Pool.run envs
        (Pool.start { s with task := { task' with Status := "Downloading" } })
        schedule).s).1.fs (FileName.output s.task.OutputFile) = some r := by
  obtain ⟨t2, h1, h2, h3, h4⟩ := initializeChunks_getElem? s.task n hn hc
  have ht : t2 = task' := Option.some.inj (h1.symm.trans hinit)
  subst ht
  have hpos : 0 < s.task.ChunkCount := by rw [hc]; exact_mod_cast hn
  have hcs : t2.Chunks = (List.range n).map (mkChunk r.length n (Int.tdiv r.length n)) := by
    have := initializeChunks_some s.task hpos
    rw [h1] at this
    rw [Option.some.inj this]
    simp only [hc, hT, Int.toNat_ofNat]
  have hfields : t2.OutputFile = s.task.OutputFile ∧ t2.URL = s.task.URL ∧
      t2.ChunkCount = s.task.ChunkCount := by
    rw [h2]; exact ⟨rfl, rfl, rfl⟩
  generalize hp : Pool.run envs
    (Pool.start { s with task := { t2 with Status := "Downloading" } }) schedule = p at *
  have hstart : SinksOk s.task.OutputFile s.task.URL t2.Chunks (wantOf r t2.Chunks)
      (Pool.start { s with task := { t2 with Status := "Downloading" } }) := by
    rw [← hfields.1, ← hfields.2.1]
    refine SinksOk_start (wantOf r t2.Chunks)
      { s with task := { t2 with Status := "Downloading" } } ?_
    intro i c hc'
    simp only [] at hc'
    rw [h4 i] at hc'
    by_cases hi : i < n
    · rw [if_pos hi] at hc'
      rw [← Option.some.inj hc']
      exact ⟨rfl, rfl⟩
    · rw [if_neg hi] at hc'
      exact Option.noConfusion hc'
  have hboth : SinksOk s.task.OutputFile s.task.URL t2.Chunks (wantOf r t2.Chunks) p ∧
      ∀ f old data, p.s.disk f old data = data := by
    rw [← hp]
    exact Pool.run_invariant envs
      (fun q => SinksOk s.task.OutputFile s.task.URL t2.Chunks (wantOf r t2.Chunks) q ∧
        ∀ f old data, q.s.disk f old data = data)
      (fun q i hq => ⟨SinksOk_step _ _ _ _ envs hh q i hq.2 hq.1, by
        rw [Pool.step_disk]; exact hq.2⟩)
      schedule _ ⟨hstart, hdisk⟩
  obtain ⟨hinv, hpdisk⟩ := hboth
  have hsinks := SinksOk_joined _ _ _ _ p hinv hjoin hall
  rw [h3] at hsinks
  have hcount : p.s.task.ChunkCount = n := by
    rw [← hp, Pool.run_chunkCount]
    exact hfields.2.2.trans hc
  have hfold := (mergeStep_fold p.s.disk s.task.OutputFile (wantOf r t2.Chunks) n
    (p.s.fs.create (FileName.output s.task.OutputFile)) [] hpdisk
    (by
      intro i hi
      simp only [FS.create, reduceCtorEq, if_false]
      exact hsinks i hi)
    (by simp [FS.create]) n (le_refl n)).1
  simp only [mergeChunks, State.call, hinv.1, hcount, Int.toNat_ofNat, Bool.false_eq_true,
    if_false]
  rw [hfold, hcs, joinUpTo_mkChunk r n hn]
  rfl

theorem delivers_bodyOf (bytes : List UInt8) : Delivers (bodyOf bytes) bytes := by
  intro K hpre _
  cases K with
  | zero => simp [readBytes, bodyOf]
  | succ K =>
    have := hpre 0 (Nat.succ_pos K)
    simp [bodyOf] at this

/-- A server that honours the `Range` header is honest for every segment list. -/
theorem Honest_rangeServer (r : List UInt8) (url : String) (cs : List ChunkInfo)
    (envs : Nat → ChunkEnv) (h : ∀ i, (envs i).client = rangeServer r) :
    Honest envs url cs (wantOf r cs) := by
  intro i c0 resp hc0 hresp
  rw [h i] at hresp
  simp only [rangeServer, chunkRequest] at hresp
  have hb : resp.Body = bodyOf (slice r c0.Start c0.End) := by
    rw [← Option.some.inj hresp]
  rw [hb]
  simp only [wantOf, hc0]
  exact delivers_bodyOf _

/-- The merge theorem for the resource `[5, 6, 7, 8, 9]`, two segments and a
server that honours the `Range` header. -/
theorem mergeChunks_identical_witness :
    (mergeChunks false (Pool.run (serverWorld (rangeServer [5, 6, 7, 8, 9]) "5" 2).chunk
        (Pool.start { probedState 5 2 with
          task := { ({ probedTask 5 2 with
            Chunks := [mkChunk 5 2 2 0, mkChunk 5 2 2 1] } : DownloadTask) with
            Status := "Downloading" } })
        [0, 0, 1, 1]).s).1.fs (FileName.output (probedState 5 2).task.OutputFile) =
      some [5, 6, 7, 8, 9] :=
  mergeChunks_identical [5, 6, 7, 8, 9] 2 (by decide)
    (serverWorld (rangeServer [5, 6, 7, 8, 9]) "5" 2).chunk [0, 0, 1, 1] (probedState 5 2)
    { probedTask 5 2 with Chunks := [mkChunk 5 2 2 0, mkChunk 5 2 2 1] }
    (by decide) (by decide) (by decide)
    (Honest_rangeServer [5, 6, 7, 8, 9] _ _ _ (fun _ => rfl)) (fun _ _ _ => rfl)
    (by decide) (by decide)

/-! ## Aggregate counter -/

/-- C8 as stated fails.  (1) Two workers read one byte each of a 4-byte
resource and fail; the fallback then adds the 4 bytes of the whole file to
the 2 already counted: `Downloaded = 6 > TotalSize = 4`.  (2) A first run
counts 2 bytes and ends `Failed`; the retry, which does not reset the counter,
downloads all 4 bytes: `Downloaded = 6`.  (3) When the last worker of a
successful run has returned, `Downloaded = TotalSize = 5` while the status is
still `Downloading`. -/
theorem downloaded_exceeds_totalSize :
    (startDownload plainLib plainDownloader failingWorld 1 (freshStateWith 2)).map
        (fun s => (s.task.Downloaded, s.task.TotalSize, s.task.Status)) =
      some (6, 4, "Completed") ∧
    startDownload plainLib plainDownloader halfWorld 1 (freshStateWith 2) = some halfState ∧
    actionButtonTapped halfState.task = ({ halfTask with Status := "Preparing..." }, true) ∧
    (startDownload plainLib plainDownloader (serverWorld (rangeServer [5, 6, 7, 8]) "4" 2) 1
        { halfState with task := (actionButtonTapped halfState.task).1 }).map
        (fun s => (s.task.Downloaded, s.task.TotalSize, s.task.Status)) =
      some (6, 4, "Completed") ∧
    ((Pool.run (serverWorld (rangeServer [5, 6, 7, 8, 9]) "5" 2).chunk
        (Pool.start { probedState 5 2 with
          task := { ({ probedTask 5 2 with
            Chunks := [mkChunk 5 2 2 0, mkChunk 5 2 2 1] } : DownloadTask) with
            Status := "Downloading" } })
        [0, 0, 1, 1]).s.task.Downloaded,
      (Pool.run (serverWorld (rangeServer [5, 6, 7, 8, 9]) "5" 2).chunk
        (Pool.start { probedState 5 2 with
          task := { ({ probedTask 5 2 with
            Chunks := [mkChunk 5 2 2 0, mkChunk 5 2 2 1] } : DownloadTask) with
            Status := "Downloading" } })
        [0, 0, 1, 1]).s.task.Status) = (5, "Downloading") := by
  refine ⟨by decide, rfl, by decide, by decide, by decide⟩

theorem potential_set (cs : List ChunkInfo) :
    ∀ (workers : List Worker) (i : Nat) (c0 : ChunkInfo) (w w' : Worker),
      cs[i]? = some c0 → workers[i]? = some w →
      potential cs (workers.set i w') =
        potential cs workers - w.remaining c0 + w'.remaining c0 := by
  induction cs with
  | nil => intro workers i c0 w w' hc _; simp at hc
  | cons c cs ih =>
    intro workers i c0 w w' hc hw
    cases workers with
    | nil => simp at hw
    | cons v ws =>
      cases i with
      | zero =>
        simp only [List.getElem?_cons_zero, Option.some.injEq] at hc hw
        subst hc; subst hw
        simp only [potential, List.set_cons_zero, List.zipWith_cons_cons, List.sum_cons]
        ring
      | succ j =>
        simp only [List.getElem?_cons_succ] at hc hw
        have := ih ws j c0 w w' hc hw
        simp only [potential] at this
        simp only [potential, List.set_cons_succ, List.zipWith_cons_cons, List.sum_cons, this]
        ring

theorem potential_nonneg (cs : List ChunkInfo) :
    ∀ (workers : List Worker),
      (∀ (i : Nat) (c0 : ChunkInfo) (w : Worker), cs[i]? = some c0 → workers[i]? = some w →
        0 ≤ w.remaining c0) →
      0 ≤ potential cs workers := by
  induction cs with
  | nil => intro workers _; simp [potential]
  | cons c cs ih =>
    intro workers h
    cases workers with
    | nil => simp [potential]
    | cons v ws =>
      have h0 : 0 ≤ v.remaining c := h 0 c v (by simp) (by simp)
      have hrest : 0 ≤ potential cs ws :=
        ih ws (fun i c0 w hc hw => h (i + 1) c0 w (by simpa using hc) (by simpa using hw))
      simp only [potential] at hrest
      simp only [potential, List.zipWith_cons_cons, List.sum_cons]
      omega

/-- At the launch of the workers nothing has been counted: the potential is
the sum of the range lengths. -/
theorem potential_start (cs : List ChunkInfo) :
    potential cs (cs.map (fun _ => Worker.idle)) = (cs.map (fun c => c.End - c.Start + 1)).sum := by
  induction cs with
  | nil => simp [potential]
  | cons c cs ih =>
    simp only [potential] at ih
    simp only [potential, List.map_cons, List.zipWith_cons_cons, List.sum_cons, ih,
      Worker.remaining]

/-- The range lengths of the segments of `initializeChunks` add up to the
total size. -/
theorem mkChunk_sizes_sum (T : Int) (n : Nat) (hn : 1 ≤ n) (sz : Int) :
    (((List.range n).map (mkChunk T n sz)).map (fun c => c.End - c.Start + 1)).sum = T := by
  have hpre : ∀ m, m + 1 ≤ n →
      (((List.range m).map (mkChunk T n sz)).map (fun c => c.End - c.Start + 1)).sum =
        (m : Int) * sz := by
    intro m
    induction m with
    | zero => intro _; simp
    | succ m ih =>
      intro hm
      have hne : ¬ ((m : Int) = (n : Int) - 1) := by omega
      rw [List.range_succ, List.map_append, List.map_append, List.sum_append, ih (by omega)]
      simp only [List.map_cons, List.map_nil, List.sum_cons, List.sum_nil, mkChunk, if_neg hne]
      push_cast
      ring
  obtain ⟨m, rfl⟩ : ∃ m, n = m + 1 := ⟨n - 1, by omega⟩
  have hlast : ((m : Int) = ((m + 1 : Nat) : Int) - 1) := by push_cast; ring
  rw [List.range_succ, List.map_append, List.map_append, List.sum_append, hpre m (le_refl _)]
  simp only [List.map_cons, List.map_nil, List.sum_cons, List.sum_nil, mkChunk, if_pos hlast]
  ring

theorem downloadChunkStore_downloaded (i : Nat) (l : ReadLoop) (s : State) :
    (downloadChunkStore i l s).task.Downloaded =
      s.task.Downloaded + ((l.body l.k).data.length : Int) := by
  unfold downloadChunkStore
  simp only []
  split_ifs with hn
  · rfl
  · have : ((l.body l.k).data.length : Int) = 0 := by omega
    rw [this, add_zero]

theorem readBytes_length_succ (body : Nat → ReadResult) (k : Nat) :
    ((readBytes body (k + 1)).length : Int) =
      ((readBytes body k).length : Int) + ((body k).data.length : Int) := by
  simp [readBytes]

/-- A change of the pool that touches only worker `i` and segment `i` and does
not let the counted plus the uncounted bytes of worker `i` grow keeps `BudgetOk`. -/
theorem BudgetOk_update (url : String) (cs : List ChunkInfo) (T : Int) (p : Pool) (i : Nat)
    (s' : State) (w' : Worker) (hinv : BudgetOk url cs T p)
    (hurl : s'.task.URL = p.s.task.URL) (hsz : s'.task.TotalSize = p.s.task.TotalSize)
    (hchunks : ∀ j, j ≠ i → s'.task.Chunks[j]? = p.s.task.Chunks[j]?)
    (hi : ∀ c0 w c, cs[i]? = some c0 → p.workers[i]? = some w →
      p.s.task.Chunks[i]? = some c → c.Start = c0.Start → c.End = c0.End →
      0 ≤ w.remaining c0 → ReadOk c0 w →
      (∃ c', s'.task.Chunks[i]? = some c' ∧ c'.Start = c0.Start ∧ c'.End = c0.End) ∧
        0 ≤ w'.remaining c0 ∧ ReadOk c0 w' ∧ p.s.task.Downloaded ≤ s'.task.Downloaded ∧
        s'.task.Downloaded + w'.remaining c0 ≤ p.s.task.Downloaded + w.remaining c0)
    (hlt : i < cs.length) :
    BudgetOk url cs T { s := s', workers := p.workers.set i w' } := by
  obtain ⟨h1, h2, h3, h4, h5, h6⟩ := hinv
  obtain ⟨w, c, hw, hc, hst, hen, hrem, hread⟩ := h4 i cs[i] (List.getElem?_eq_getElem hlt)
  obtain ⟨⟨c', hc', hs', he'⟩, hrem', hread', hmono, hbud⟩ :=
    hi cs[i] w c (List.getElem?_eq_getElem hlt) hw hc hst hen hrem hread
  refine ⟨hurl.trans h1, hsz.trans h2, by simp [h3], ?_, by simp only []; omega, ?_⟩
  · intro j c0 hc0
    by_cases hji : j = i
    · subst hji
      have hc0' : c0 = cs[j] := by
        rw [List.getElem?_eq_getElem hlt] at hc0
        exact (Option.some.inj hc0).symm
      subst hc0'
      have hltw : j < p.workers.length := by rw [h3]; exact hlt
      exact ⟨w', c', by simp [List.getElem?_set_self hltw], hc', hs', he', hrem', hread'⟩
    · obtain ⟨v, d, hv, hd, k1, k2, k3, k4⟩ := h4 j c0 hc0
      refine ⟨v, d, ?_, (hchunks j hji).trans hd, k1, k2, k3, k4⟩
      simp only []
      rw [List.getElem?_set_ne (Ne.symm hji)]
      exact hv
  · simp only []
    rw [potential_set cs p.workers i cs[i] w w' (List.getElem?_eq_getElem hlt) hw]
    omega

/-- Every step of the pool keeps `BudgetOk` when no response exceeds its range. -/
theorem BudgetOk_step (url : String) (cs : List ChunkInfo) (T : Int)
    (envs : Nat → ChunkEnv) (hb : Bounded envs url cs) (p : Pool) (i : Nat)
    (hinv : BudgetOk url cs T p) : BudgetOk url cs T (Pool.step envs p i) := by
  rcases Pool.step_cases envs p i with h | ⟨hw, h⟩ | ⟨l, hw, h⟩
  · rw [h]; exact hinv
  · rw [h]
    have hlt : i < cs.length := by
      rw [← hinv.2.2.1]
      exact (List.getElem?_eq_some.mp hw).1
    obtain ⟨w0, c, hw0, hc, hst, hen, -, -⟩ :=
      hinv.2.2.2.1 i cs[i] (List.getElem?_eq_getElem hlt)
    rcases downloadChunkEnter_cases (envs i) p.s i c hc with he | ⟨resp, hresp, he⟩
    · rw [he]
      refine BudgetOk_update url cs T p i _ _ hinv rfl rfl ?_ ?_ hlt
      · intro j hj
        exact modify_getElem?_ne _ _ i j hj
      · intro c0 w c1 hc0 hw1 hc1 hs1 he1 hrem _
        refine ⟨⟨_, modify_getElem?_eq _ _ i c1 hc1, hs1, he1⟩, ?_, trivial, le_refl _, ?_⟩
        · simp [Worker.after, Worker.remaining]
        · show p.s.task.Downloaded + 0 ≤ p.s.task.Downloaded + w.remaining c0
          omega
    · rw [he]
      refine BudgetOk_update url cs T p i _ _ hinv rfl rfl (fun j _ => rfl) ?_ hlt
      intro c0 w c1 hc0 hw1 hc1 hs1 he1 hrem _
      have hcc : c1 = c := Option.some.inj (hc1.symm.trans hc)
      subst hcc
      have hwi : w = Worker.idle := Option.some.inj (hw1.symm.trans hw)
      subst hwi
      have hbound := hb i c0 resp hc0 (by
        rw [← chunkRequest_congr url c1 c0 hs1 he1, ← hinv.1]
        exact hresp)
      refine ⟨⟨c1, hc1, hs1, he1⟩, ?_, ?_, le_refl _, ?_⟩
      · simp only [Worker.after, Worker.remaining] at hrem ⊢
        omega
      · simp only [Worker.after, ReadOk]
        exact ⟨by simp [readBytes], fun k hk => absurd hk (Nat.not_lt_zero k), hbound⟩
      · simp only [Worker.after, Worker.remaining, State.call]
        omega
  · rw [h]
    have hlt : i < cs.length := by
      rw [← hinv.2.2.1]
      exact (List.getElem?_eq_some.mp hw).1
    obtain ⟨hf1, hf2, hf3, -⟩ := downloadChunkStore_fields i l p.s
    have hdl := downloadChunkStore_downloaded i l p.s
    have hlen := readBytes_length_succ l.body l.k
    have hcne : ∀ j, j ≠ i → (downloadChunkStore i l p.s).task.Chunks[j]? =
        p.s.task.Chunks[j]? := fun j hj => downloadChunkStore_chunk_ne i l p.s j hj
    have hdone : ∀ (s' : State), s'.task.URL = p.s.task.URL →
        s'.task.TotalSize = p.s.task.TotalSize →
        s'.task.Downloaded = (downloadChunkStore i l p.s).task.Downloaded →
        (∀ j, j ≠ i → s'.task.Chunks[j]? = p.s.task.Chunks[j]?) →
        (∀ c', (downloadChunkStore i l p.s).task.Chunks[i]? = some c' →
          ∃ c'', s'.task.Chunks[i]? = some c'' ∧ c''.Start = c'.Start ∧ c''.End = c'.End) →
        BudgetOk url cs T { s := s', workers := p.workers.set i Worker.done } := by
      intro s' k1 k2 k3 k4 k5
      refine BudgetOk_update url cs T p i s' _ hinv k1 k2 k4 ?_ hlt
      intro c0 w c1 hc0 hw1 hc1 hs1 he1 hrem hread
      have hwl : w = Worker.reading l := Option.some.inj (hw1.symm.trans hw)
      subst hwl
      obtain ⟨hd, hpre, hbound⟩ := hread
      obtain ⟨c', hc', -, hs', he', -⟩ := downloadChunkStore_chunk_eq i l p.s c1 hc1
      obtain ⟨c'', hc'', hs'', he''⟩ := k5 c' hc'
      have hb1 := hbound l.k hpre
      refine ⟨⟨c'', hc'', hs''.trans (hs'.trans hs1), he''.trans (he'.trans he1)⟩, ?_,
        trivial, ?_, ?_⟩
      · simp [Worker.remaining]
      · rw [k3, hdl]; omega
      · simp only [Worker.remaining] at hrem ⊢
        rw [k3, hdl]; omega
    rcases downloadChunkIter_cases (envs i) i l p.s with
      ⟨-, he⟩ | ⟨-, he⟩ | ⟨-, -, he⟩ | ⟨herr, -, d, he, hd⟩
    · rw [he]
      refine hdone _ hf2 hf3 rfl ?_ ?_
      · intro j hj
        exact (modify_getElem?_ne _ _ i j hj).trans (hcne j hj)
      · intro c' hc'
        exact ⟨_, modify_getElem?_eq _ _ i c' hc', rfl, rfl⟩
    · rw [he]
      refine hdone _ hf2 hf3 rfl ?_ ?_
      · intro j hj
        exact (modify_getElem?_ne _ _ i j hj).trans (hcne j hj)
      · intro c' hc'
        exact ⟨_, modify_getElem?_eq _ _ i c' hc', rfl, rfl⟩
    · rw [he]
      exact hdone _ hf2 hf3 rfl hcne (fun c' hc' => ⟨c', hc', rfl, rfl⟩)
    · rw [he]
      refine BudgetOk_update url cs T p i _ _ hinv hf2 hf3 hcne ?_ hlt
      intro c0 w c1 hc0 hw1 hc1 hs1 he1 hrem hread
      have hwl : w = Worker.reading l := Option.some.inj (hw1.symm.trans hw)
      subst hwl
      obtain ⟨hdn, hpre, hbound⟩ := hread
      obtain ⟨c', hc', -, hs', he', -⟩ := downloadChunkStore_chunk_eq i l p.s c1 hc1
      have hb1 := hbound l.k hpre
      refine ⟨⟨c', hc', hs'.trans hs1, he'.trans he1⟩, ?_, ?_, ?_, ?_⟩
      · simp only [Worker.after, Worker.remaining]
        omega
      · simp only [Worker.after, ReadOk]
        refine ⟨by omega, ?_, hbound⟩
        intro k hk
        rcases Nat.lt_succ_iff_lt_or_eq.mp hk with hlt' | heq
        · exact hpre k hlt'
        · rw [heq]; exact herr
      · rw [hdl]; omega
      · simp only [Worker.after, Worker.remaining] at hrem ⊢
        rw [hdl]; omega

theorem mkChunk_size_nonneg (T : Int) (n : Nat) (hn : 1 ≤ n) (hT : 0 ≤ T) (i : Nat) :
    0 ≤ (mkChunk T n (Int.tdiv T n) i).End - (mkChunk T n (Int.tdiv T n) i).Start + 1 := by
  obtain ⟨hdiv, hs0, hlo, -⟩ := tdiv_facts T n hT hn
  rw [hdiv]
  simp only [mkChunk]
  by_cases hl : (i : Int) = (n : Int) - 1
  · rw [if_pos hl]
    have h1 : (i : Int) * (T / (n : Int)) ≤ (n : Int) * (T / (n : Int)) :=
      mul_le_mul_size (by omega) hs0
    omega
  · rw [if_neg hl]; omega

/-- C8 (as amended): on a first run of `startDownload` (`Downloaded = 0` when
the workers start) for a task whose `TotalSize` is positive, if no response
carries more bytes than the range of its segment, then in every state the
chunk workers reach by their per-read increments, in whatever interleaving,
`0 ≤ task.Downloaded ≤ task.TotalSize`. -/
theorem downloaded_le_totalSize (n : Nat) (hn : 1 ≤ n) (envs : Nat → ChunkEnv)
    (schedule : List Nat) (s : State) (task' : DownloadTask)
    (hT : 0 < s.task.TotalSize) (hc : s.task.ChunkCount = n) (hD : s.task.Downloaded = 0)
    (hinit : initializeChunks s.task = some task')
    (hb : Bounded envs s.task.URL task'.Chunks) :
    0 ≤ (Pool.run envs (Pool.start { s with task := { task' with Status := "Downloading" } })
        schedule).s.task.Downloaded ∧
    (Pool.run envs (Pool.start { s with task := { task' with Status := "Downloading" } })
        schedule).s.task.Downloaded ≤
      (Pool.run envs (Pool.start { s with task := { task' with Status := "Downloading" } })
        schedule).s.task.TotalSize ∧
    (Pool.run envs (Pool.start { s with task := { task' with Status := "Downloading" } })
        schedule).s.task.TotalSize = s.task.TotalSize := by
  obtain ⟨t2, h1, h2, h3, h4⟩ := initializeChunks_getElem? s.task n hn hc
  have ht : t2 = task' := Option.some.inj (h1.symm.trans hinit)
  subst ht
  have hpos : 0 < s.task.ChunkCount := by rw [hc]; exact_mod_cast hn
  have hcs : t2.Chunks = (List.range n).map
      (mkChunk s.task.TotalSize n (Int.tdiv s.task.TotalSize n)) := by
    have := initializeChunks_some s.task hpos
    rw [h1] at this
    rw [Option.some.inj this]
    simp only [hc, Int.toNat_ofNat]
  have hfields : t2.URL = s.task.URL ∧ t2.TotalSize = s.task.TotalSize ∧
      t2.Downloaded = s.task.Downloaded := by
    rw [h2]; exact ⟨rfl, rfl, rfl⟩
  have hstart : BudgetOk s.task.URL t2.Chunks s.task.TotalSize
      (Pool.start { s with task := { t2 with Status := "Downloading" } }) := by
    refine ⟨hfields.1, hfields.2.1, by simp [Pool.start], ?_, ?_, ?_⟩
    · intro i c0 hc0
      refine ⟨Worker.idle, c0, ?_, hc0, rfl, rfl, ?_, trivial⟩
      · simp only [Pool.start, List.getElem?_map, hc0, Option.map_some']
      · rw [h4 i] at hc0
        by_cases hi : i < n
        · rw [if_pos hi] at hc0
          rw [← Option.some.inj hc0]
          exact mkChunk_size_nonneg s.task.TotalSize n hn hT.le i
        · rw [if_neg hi] at hc0
          exact Option.noConfusion hc0
    · show 0 ≤ t2.Downloaded
      rw [hfields.2.2, hD]
    · show t2.Downloaded + potential t2.Chunks (t2.Chunks.map (fun _ => Worker.idle)) ≤ _
      rw [potential_start, hfields.2.2, hD, hcs, mkChunk_sizes_sum _ n hn]
      omega
  have hinv := Pool.run_invariant envs _
    (fun q i hq => BudgetOk_step s.task.URL t2.Chunks s.task.TotalSize envs hb q i hq)
    schedule _ hstart
  obtain ⟨-, k2, k3, k4, k5, k6⟩ := hinv
  have hpot := potential_nonneg t2.Chunks _ (by
    intro i c0 w hc0 hw
    obtain ⟨w1, c, hw1, -, -, -, hrem, -⟩ := k4 i c0 hc0
    rw [hw] at hw1
    rw [Option.some.inj hw1]
    exact hrem)
  refine ⟨k5, ?_, k2⟩
  rw [k2]
  omega

theorem Bounded_rangeServer (r : List UInt8) (url : String) (cs : List ChunkInfo)
    (envs : Nat → ChunkEnv) (h : ∀ i, (envs i).client = rangeServer r)
    (hsize : ∀ c ∈ cs, 0 ≤ c.End - c.Start + 1) : Bounded envs url cs := by
  intro i c0 resp hc0 hresp K hpre
  rw [h i] at hresp
  simp only [rangeServer, chunkRequest] at hresp
  have hb : resp.Body = bodyOf (slice r c0.Start c0.End) := by
    rw [← Option.some.inj hresp]
  rw [hb] at hpre ⊢
  cases K with
  | zero =>
    have h0 := hsize c0 (List.getElem?_mem hc0)
    have hlen : (slice r c0.Start c0.End).length ≤ (c0.End - c0.Start + 1).toNat := by
      simp only [slice, List.length_take]
      exact Nat.min_le_left _ _
    simp only [readBytes, bodyOf, List.nil_append]
    omega
  | succ K =>
    have := hpre 0 (Nat.succ_pos K)
    simp [bodyOf] at this

/-- The counter theorem for the resource `[5, 6, 7, 8, 9]`, two segments and a
server that honours the `Range` header, after three steps of the workers. -/
theorem downloaded_le_totalSize_witness :
    0 ≤ (Pool.run (serverWorld (rangeServer [5, 6, 7, 8, 9]) "5" 2).chunk
        (Pool.start { probedState 5 2 with
          task := { ({ probedTask 5 2 with
            Chunks := [mkChunk 5 2 2 0, mkChunk 5 2 2 1] } : DownloadTask) with
            Status := "Downloading" } })
        [0, 1, 1]).s.task.Downloaded ∧
    (Pool.run (serverWorld (rangeServer [5, 6, 7, 8, 9]) "5" 2).chunk
        (Pool.start { probedState 5 2 with
          task := { ({ probedTask 5 2 with
            Chunks := [mkChunk 5 2 2 0, mkChunk 5 2 2 1] } : DownloadTask) with
            Status := "Downloading" } })
        [0, 1, 1]).s.task.Downloaded ≤
      (Pool.run (serverWorld (rangeServer [5, 6, 7, 8, 9]) "5" 2).chunk
        (Pool.start { probedState 5 2 with
          task := { ({ probedTask 5 2 with
            Chunks := [mkChunk 5 2 2 0, mkChunk 5 2 2 1] } : DownloadTask) with
            Status := "Downloading" } })
        [0, 1, 1]).s.task.TotalSize ∧
    (Pool.run (serverWorld (rangeServer [5, 6, 7, 8, 9]) "5" 2).chunk
        (Pool.start { probedState 5 2 with
          task := { ({ probedTask 5 2 with
            Chunks := [mkChunk 5 2 2 0, mkChunk 5 2 2 1] } : DownloadTask) with
            Status := "Downloading" } })
        [0, 1, 1]).s.task.TotalSize = (probedState 5 2).task.TotalSize :=
  downloaded_le_totalSize 2 (by decide)
    (serverWorld (rangeServer [5, 6, 7, 8, 9]) "5" 2).chunk [0, 1, 1] (probedState 5 2)
    { probedTask 5 2 with Chunks := [mkChunk 5 2 2 0, mkChunk 5 2 2 1] }
    (by decide) (by decide) (by decide) (by decide)
    (Bounded_rangeServer [5, 6, 7, 8, 9] _ _ _ (fun _ => rfl) (by decide))

/-! ## Chunk worker outcomes -/

theorem downloadChunkLoop_ret (env : ChunkEnv) (i fuel : Nat) (l : ReadLoop) (s s' : State)
    (h : downloadChunkIter env i l s = (s', none)) :
    downloadChunkLoop env i (fuel + 1) l s = some s' := by
  simp only [downloadChunkLoop, h]

theorem downloadChunkLoop_next (env : ChunkEnv) (i fuel : Nat) (l l' : ReadLoop)
    (s s' : State) (h : downloadChunkIter env i l s = (s', some l')) :
    downloadChunkLoop env i (fuel + 1) l s = downloadChunkLoop env i fuel l' s' := by
  simp only [downloadChunkLoop, h]

/-- What `downloadChunk` leaves in the segment it works on, by the way its
read loop ends. -/
theorem downloadChunkLoop_outcome (env : ChunkEnv) (i : Nat) (K : Nat) :
    ∀ (l : ReadLoop) (s : State) (c : ChunkInfo) (fuel : Nat),
      s.task.Chunks[i]? = some c → K < fuel →
      (∀ k, k < K → (l.body (l.k + k)).err = none ∧ env.polled (l.k + k) ≠ "Cancelled") →
      ((l.body (l.k + K)).err ≠ none ∨ env.polled (l.k + K) = "Cancelled") →
      ∃ s', downloadChunkLoop env i fuel l s = some s' ∧
        ∃ c', s'.task.Chunks[i]? = some c' ∧
          c'.Index = c.Index ∧ c'.Start = c.Start ∧ c'.End = c.End ∧
          ((l.body (l.k + K)).err = some ReadErr.EOF →
            c'.Status = "Completed" ∧ c'.Progress = ProgressVal.one) ∧
          ((l.body (l.k + K)).err = some ReadErr.other → c'.Status = "Failed") ∧
          ((l.body (l.k + K)).err = none → c'.Status = c.Status) := by
  induction K with
  | zero =>
    intro l s c fuel hc hfuel _ hterm
    obtain ⟨f, rfl⟩ : ∃ f, fuel = f + 1 := ⟨fuel - 1, by omega⟩
    obtain ⟨c1, hc1, hi1, hs1, he1, hst1⟩ := downloadChunkStore_chunk_eq i l s c hc
    simp only [Nat.add_zero] at hterm ⊢
    rcases downloadChunkIter_cases env i l s with
      ⟨herr, he⟩ | ⟨herr, he⟩ | ⟨herr, hpoll, he⟩ | ⟨herr, hpoll, d, he, -⟩
    · refine ⟨_, downloadChunkLoop_ret env i f l s _ he, _,
        modify_getElem?_eq _ _ i c1 hc1, hi1, hs1, he1, ?_, ?_, ?_⟩
      · intro _; exact ⟨rfl, rfl⟩
      · intro h; rw [herr] at h; exact absurd h (by decide)
      · intro h; rw [herr] at h; exact absurd h (by decide)
    · refine ⟨_, downloadChunkLoop_ret env i f l s _ he, _,
        modify_getElem?_eq _ _ i c1 hc1, hi1, hs1, he1, ?_, ?_, ?_⟩
      · intro h; rw [herr] at h; exact absurd h (by decide)
      · intro _; rfl
      · intro h; rw [herr] at h; exact absurd h (by decide)
    · refine ⟨_, downloadChunkLoop_ret env i f l s _ he, c1, hc1, hi1, hs1, he1, ?_, ?_, ?_⟩
      · intro h; rw [herr] at h; exact absurd h (by decide)
      · intro h; rw [herr] at h; exact absurd h (by decide)
      · intro _; exact hst1
    · rcases hterm with h | h
      · exact absurd herr h
      · exact absurd h hpoll
  | succ K ih =>
    intro l s c fuel hc hfuel hpre hterm
    obtain ⟨f, rfl⟩ : ∃ f, fuel = f + 1 := ⟨fuel - 1, by omega⟩
    obtain ⟨c1, hc1, hi1, hs1, he1, hst1⟩ := downloadChunkStore_chunk_eq i l s c hc
    have h0 := hpre 0 (Nat.succ_pos K)
    simp only [Nat.add_zero] at h0
    rcases downloadChunkIter_cases env i l s with
      ⟨herr, -⟩ | ⟨herr, -⟩ | ⟨-, hpoll, -⟩ | ⟨-, -, d, he, -⟩
    · rw [h0.1] at herr; exact absurd herr (by decide)
    · rw [h0.1] at herr; exact absurd herr (by decide)
    · exact absurd hpoll h0.2
    · have hshift : ∀ k, l.k + 1 + k = l.k + (k + 1) := fun k => by omega
      obtain ⟨s', hs', c', hc', k1, k2, k3, k4, k5, k6⟩ :=
        ih { l with k := l.k + 1, downloaded := d } (downloadChunkStore i l s) c1 f hc1
          (by omega)
          (by
            intro k hk
            simp only [hshift]
            exact hpre (k + 1) (by omega))
          (by
            simp only [hshift]
            exact hterm)
      simp only [hshift] at k4 k5 k6
      refine ⟨s', (downloadChunkLoop_next env i f l _ s _ he).trans hs', c', hc',
        k1.trans hi1, k2.trans hs1, k3.trans he1, k4, k5, ?_⟩
      intro h
      exact (k6 h).trans hst1

theorem downloadChunkEnter_bad_status (env : ChunkEnv) (s : State) (i : Nat) (c : ChunkInfo)
    (resp : Response) (hc : s.task.Chunks[i]? = some c) (hreq : env.requestErr = false)
    (hresp : env.client (chunkRequest s.task.URL c) = some resp)
    (h206 : resp.StatusCode ≠ 206) (h200 : resp.StatusCode ≠ 200) :
    downloadChunkEnter env s i =
      ((s.call (Call.downloadChunk i)).updateChunk i (fun c => { c with Status := "Failed" }),
        none) := by
  unfold downloadChunkEnter
  simp only [State.call, hc, hreq, hresp]
  simp [h206, h200]

theorem downloadChunkEnter_ok (env : ChunkEnv) (s : State) (i : Nat) (c : ChunkInfo)
    (resp : Response) (hc : s.task.Chunks[i]? = some c) (hreq : env.requestErr = false)
    (hresp : env.client (chunkRequest s.task.URL c) = some resp)
    (hcode : resp.StatusCode = 206 ∨ resp.StatusCode = 200) (hcreate : env.createErr = false) :
    downloadChunkEnter env s i =
      ({ s.call (Call.downloadChunk i) with
          fs := s.fs.create (FileName.part s.task.OutputFile c.Index) },
       some { body := resp.Body, tempFile := FileName.part s.task.OutputFile c.Index,
              totalBytes := c.End - c.Start + 1, k := 0, downloaded := 0 }) := by
  have hst : ¬ (resp.StatusCode ≠ 206 ∧ resp.StatusCode ≠ 200) := by
    rintro ⟨h1, h2⟩
    rcases hcode with h | h
    · exact h1 h
    · exact h2 h
  unfold downloadChunkEnter
  simp only [State.call, hc, hreq, hresp]
  simp [hst, hcreate]

/-- C12: `downloadChunk`, its request answered by `resp`, leaves its segment
`Failed` when the status code is neither 200 nor 206; otherwise, the sink
being created and the reads before read `K` having returned no error (and no
cancellation having been observed after them), it returns and leaves the
segment `Failed` when read `K` returns a non-EOF error, `Completed` with
progress `1.0` when read `K` returns `io.EOF`, and with its status unchanged
(neither `Failed` nor `Completed` for a `Pending` segment) when read `K`
returns no error and the worker then finds the task's status `Cancelled`. -/
theorem downloadChunk_outcome (env : ChunkEnv) (s : State) (i : Nat) (c : ChunkInfo)
    (resp : Response) (K fuel : Nat) (hc : s.task.Chunks[i]? = some c)
    (hreq : env.requestErr = false)
    (hresp : env.client (chunkRequest s.task.URL c) = some resp) :
    (resp.StatusCode ≠ 206 → resp.StatusCode ≠ 200 →
      ∃ s', downloadChunk env fuel s i = some s' ∧
        ∃ c', s'.task.Chunks[i]? = some c' ∧ c'.Status = "Failed") ∧
    ((resp.StatusCode = 206 ∨ resp.StatusCode = 200) → env.createErr = false → K < fuel →
      (∀ k, k < K → (resp.Body k).err = none ∧ env.polled k ≠ "Cancelled") →
      ((resp.Body K).err = some ReadErr.other →
        ∃ s', downloadChunk env fuel s i = some s' ∧
          ∃ c', s'.task.Chunks[i]? = some c' ∧ c'.Status = "Failed") ∧
      ((resp.Body K).err = some ReadErr.EOF →
        ∃ s', downloadChunk env fuel s i = some s' ∧
          ∃ c', s'.task.Chunks[i]? = some c' ∧ c'.Status = "Completed" ∧
            c'.Progress = ProgressVal.one) ∧
      ((resp.Body K).err = none → env.polled K = "Cancelled" →
        ∃ s', downloadChunk env fuel s i = some s' ∧
          ∃ c', s'.task.Chunks[i]? = some c' ∧ c'.Status = c.Status ∧
            (c.Status = "Pending" → c'.Status ≠ "Failed" ∧ c'.Status ≠ "Completed"))) := by
  constructor
  · intro h206 h200
    have he := downloadChunkEnter_bad_status env s i c resp hc hreq hresp h206 h200
    have hd : downloadChunk env fuel s i = some ((s.call (Call.downloadChunk i)).updateChunk i
        (fun c => { c with Status := "Failed" })) := by
      simp only [downloadChunk, he]
    exact ⟨_, hd, _, modify_getElem?_eq _ _ i c hc, rfl⟩
  · intro hcode hcreate hfuel hpre
    have he := downloadChunkEnter_ok env s i c resp hc hreq hresp hcode hcreate
    have hrun : ∀ l0 s0, downloadChunkEnter env s i = (s0, some l0) →
        downloadChunk env fuel s i = downloadChunkLoop env i fuel l0 s0 := by
      intro l0 s0 h
      simp only [downloadChunk, h]
    have hloop := fun hterm => downloadChunkLoop_outcome env i K
      { body := resp.Body, tempFile := FileName.part s.task.OutputFile c.Index,
        totalBytes := c.End - c.Start + 1, k := 0, downloaded := 0 }
      { s.call (Call.downloadChunk i) with
        fs := s.fs.create (FileName.part s.task.OutputFile c.Index) }
      c fuel hc hfuel
      (by intro k hk; simp only [Nat.zero_add]; exact hpre k hk) hterm
    simp only [Nat.zero_add] at hloop
    rw [hrun _ _ he]
    refine ⟨?_, ?_, ?_⟩
    · intro herr
      obtain ⟨s', hs', c', hc', -, -, -, -, k5, -⟩ :=
        hloop (Or.inl (by rw [herr]; exact Option.noConfusion))
      exact ⟨s', hs', c', hc', k5 herr⟩
    · intro herr
      obtain ⟨s', hs', c', hc', -, -, -, k4, -, -⟩ :=
        hloop (Or.inl (by rw [herr]; exact Option.noConfusion))
      exact ⟨s', hs', c', hc', k4 herr⟩
    · intro herr hpoll
      obtain ⟨s', hs', c', hc', -, -, -, -, -, k6⟩ := hloop (Or.inr hpoll)
      refine ⟨s', hs', c', hc', k6 herr, ?_⟩
      intro hp
      rw [k6 herr, hp]
      exact ⟨by decide, by decide⟩

/-- The outcome theorem for a worker whose response has status 206 and whose
body ends at its second read: the segment is `Completed` with progress `1.0`. -/
theorem downloadChunk_outcome_witness :
    ∃ s', downloadChunk (chunkEnvOf (clientOf 206 (bodyInTwo [7] [8])) (fun _ => "Downloading"))
        2 oneChunkState 0 = some s' ∧
      ∃ c', s'.task.Chunks[0]? = some c' ∧ c'.Status = "Completed" ∧
        c'.Progress = ProgressVal.one :=
  ((downloadChunk_outcome
      (chunkEnvOf (clientOf 206 (bodyInTwo [7] [8])) (fun _ => "Downloading"))
      oneChunkState 0
      { Index := 0, Start := 0, End := 3, Progress := ProgressVal.zero, Status := "Pending" }
      { StatusCode := 206, Header := [], Body := bodyInTwo [7] [8] } 1 2 rfl rfl rfl).2
    (Or.inl rfl) rfl (by decide)
    (fun k hk => by
      have hk0 : k = 0 := by omega
      subst hk0
      exact ⟨rfl, by decide⟩)).2.1 rfl

/-! ## Fallback transfer -/

/-- The read loop of `downloadSingleFile` over a body that never returns
`io.EOF` does not end, whatever the fuel. -/
theorem downloadSingleFileLoop_never (body : Nat → ReadResult)
    (h : ∀ k, (body k).err ≠ some ReadErr.EOF) :
    ∀ (fuel k : Nat) (s : State), downloadSingleFileLoop body fuel k s = none := by
  intro fuel
  induction fuel with
  | zero => intro k s; rfl
  | succ fuel ih =>
    intro k s
    simp only [downloadSingleFileLoop, if_neg (h k)]
    exact ih _ _

theorem bodyFailing_never_EOF (first : List UInt8) :
    ∀ k, (bodyFailing first k).err ≠ some ReadErr.EOF := by
  intro k
  unfold bodyFailing
  split_ifs <;> simp

/-- C11 (the code at the failing inputs): the whole-file GET is answered and
the destination created; the first read returns one byte and every later read
returns a non-EOF error.  `downloadSingleFile` does not return, whatever the
fuel, so the status never becomes `Failed`.  When the error is followed by
`io.EOF`, it returns with status `Completed`, the file holding the one byte
received.  A transfer that cannot be sent ends `Failed`, and a body read to
`io.EOF` without error ends `Completed`. -/
theorem downloadSingleFile_read_error_ignored :
    (∀ fuel, downloadSingleFile (singleEnvOf (clientOf 200 (bodyFailing [7]))) fuel
        (probedState 4 2) = none) ∧
    (downloadSingleFile (singleEnvOf (clientOf 200 (bodyErrThenEOF [7]))) 3
        (probedState 4 2)).map
      (fun s => (s.task.Status, s.fs (FileName.output s.task.OutputFile), s.trace)) =
      some ("Completed", some [7], [Call.downloadSingleFile]) ∧
    (downloadSingleFile (singleEnvOf noClient) 0 (probedState 4 2)).map
      (fun s => (s.task.Status, s.trace)) = some ("Failed", [Call.downloadSingleFile]) ∧
    (downloadSingleFile (singleEnvOf (clientOf 200 (bodyInTwo [5, 6] [7, 8]))) 2
        (probedState 4 2)).map
      (fun s => (s.task.Status, s.fs (FileName.output s.task.OutputFile))) =
      some ("Completed", some [5, 6, 7, 8]) := by
  refine ⟨?_, by decide, by decide, by decide⟩
  intro fuel
  simp only [downloadSingleFile, singleEnvOf, clientOf]
  exact downloadSingleFileLoop_never _ (bodyFailing_never_EOF [7]) fuel 0 _

end DownloadHub
